import Mathlib

/-!
Verification of the RsMetaCheck metadata-quality rules against their
natural-language specification.

The Python sources are embedded shallowly:
* Python values (`None`, booleans, ints, strings, lists, dicts) become the
  inductive type `PyVal`; a harvested metadata record (`somef_data`) and a
  rule's result dict (`Finding`) are association lists of string keys.
* Operations that can raise in Python (attribute access on a non-dict,
  membership tests on non-containers, string methods on non-strings) are
  embedded in `Except String`, the error text naming the Python exception
  class that would be raised.
* Rules whose modules are absent from the sources (p001, p008, p012, p015,
  p016, the batch aggregator and `extract_metadata_source_filename`) are
  modelled from the specification and from the expectations of the
  repository's own test suite; each such definition carries a doc comment
  starting `Modelled from the spec:`.
-/

namespace RsMetaCheck

/-! ### String primitives

Lean's built-in `String` operations do not reduce inside the kernel, so the
handful of Python string operations the sources use (`lower`, `strip`,
`startswith`, slicing, substring tests) are re-implemented over the
character list of the string. All are executable and kernel-reducible. -/

/-- ASCII lower-casing of one character (Python `str.lower` on the ASCII
strings occurring in the sources). -/
def charLower (c : Char) : Char :=
  if 65 ≤ c.toNat ∧ c.toNat ≤ 90 then Char.ofNat (c.toNat + 32) else c

/-- `s.lower()`. -/
def sLower (s : String) : String := ⟨s.data.map charLower⟩

/-- Does the character list start with the pattern list? -/
def listStarts : List Char → List Char → Bool
  | _, [] => true
  | [], _ :: _ => false
  | x :: xs, p :: ps => x = p && listStarts xs ps

/-- Does the character list contain the pattern list as a contiguous run? -/
def listHasSub : List Char → List Char → Bool
  | [], pat => pat.isEmpty
  | x :: xs, pat => listStarts (x :: xs) pat || listHasSub xs pat

/-- Python-style substring containment: `pat in s`. -/
def strContains (s pat : String) : Bool :=
  listHasSub s.data pat.data

/-- `s.startswith(pat)`. -/
def sStarts (s pat : String) : Bool :=
  listStarts s.data pat.data

/-- The whitespace characters stripped by Python `str.strip()`. -/
def isSpaceC (c : Char) : Bool :=
  c = ' ' || c = '\t' || c = '\n' || c = '\r'

/-- `s.strip()` on a character list. -/
def trimL (xs : List Char) : List Char :=
  ((xs.dropWhile isSpaceC).reverse.dropWhile isSpaceC).reverse

/-- `s.strip()`. -/
def sTrim (s : String) : String := ⟨trimL s.data⟩

/-- `s[n:]`. -/
def sDrop (s : String) (n : Nat) : String := ⟨s.data.drop n⟩

/-- ASCII decimal digit (`\d` over the version/DOI strings involved). -/
def isDigitC (c : Char) : Bool := 48 ≤ c.toNat && c.toNat ≤ 57

/-- ASCII alphabetic character (Python `str.isalpha` on the ASCII test
data involved). -/
def isAlphaC (c : Char) : Bool :=
  (65 ≤ c.toNat && c.toNat ≤ 90) || (97 ≤ c.toNat && c.toNat ≤ 122)

/-- Shallow embedding of the Python values that occur in harvested
metadata records: `None`, `bool`, `int`, `str`, `list`, `dict`. -/
inductive PyVal where
  | none
  | bool (b : Bool)
  | int (n : Int)
  | str (s : String)
  | list (xs : List PyVal)
  | dict (kvs : List (String × PyVal))

/-- A Python dict with string keys, embedded as an association list. -/
abbrev PyDict := List (String × PyVal)

/-- A harvested metadata record (`somef_data`): attribute name to value. -/
abbrev Record := PyDict

/-- A rule's result dict. -/
abbrev Finding := PyDict

/-- `d[k]` lookup on an association list (first matching key wins;
Python dicts have unique keys, so this is faithful). -/
def dictLookup : PyDict → String → Option PyVal
  | [], _ => Option.none
  | (k', v) :: rest, k => if k' = k then some v else dictLookup rest k

/-- `d[k] = v` on an association list: overwrite the first occurrence of
the key, append when the key is absent (Python dict assignment). -/
def dictSet : PyDict → String → PyVal → PyDict
  | [], k, v => [(k, v)]
  | (k', v') :: rest, k, v =>
      if k' = k then (k, v) :: rest else (k', v') :: dictSet rest k v

/-- Read a field of a result dict, `PyVal.none` when absent (all reads in
the sources use keys present in the result literal). -/
def findingGet (res : Finding) (k : String) : PyVal :=
  (dictLookup res k).getD PyVal.none

/-- Python truthiness (`bool(v)`). -/
def pyTruthy : PyVal → Bool
  | .none => false
  | .bool b => b
  | .int n => n != 0
  | .str s => s != ""
  | .list xs => !xs.isEmpty
  | .dict kvs => !kvs.isEmpty

/-- `v == s` for a string literal `s`: Python equality across types is
`False`, never an error. -/
def pyEqStr (v : PyVal) (s : String) : Bool :=
  match v with
  | .str t => t = s
  | _ => false

/-- `v.get(k, dflt)`: dict lookup with default; `AttributeError` when the
receiver is not a dict. -/
def pyGet (v : PyVal) (k : String) (dflt : PyVal) : Except String PyVal :=
  match v with
  | .dict kvs => .ok ((dictLookup kvs k).getD dflt)
  | _ => .error "AttributeError"

/-- `v[k]` subscription with a string key: only dicts support it
(`KeyError` on a missing key, `TypeError` on any other receiver). -/
def pyIndex (v : PyVal) (k : String) : Except String PyVal :=
  match v with
  | .dict kvs =>
      match dictLookup kvs k with
      | some w => .ok w
      | Option.none => .error "KeyError"
  | _ => .error "TypeError"

/-- Python `pat in v` for a string `pat`: substring test on strings,
membership on lists, key test on dicts, `TypeError` otherwise. -/
def pyIn (pat : String) (v : PyVal) : Except String Bool :=
  match v with
  | .str s => .ok (strContains s pat)
  | .list xs => .ok (xs.any (fun x => pyEqStr x pat))
  | .dict kvs => .ok (kvs.any (fun kv => kv.1 = pat))
  | _ => .error "TypeError"

/-- `v.lower()`: `AttributeError` unless `v` is a string. -/
def pyLower (v : PyVal) : Except String String :=
  match v with
  | .str s => .ok (sLower s)
  | _ => .error "AttributeError"

/-- `str(v)` as used in f-strings. Exact for strings (the only case the
sources reach on well-typed data); a fixed approximation otherwise. -/
def pyStrRepr : PyVal → String
  | .str s => s
  | .int n => toString n
  | .bool b => cond b "True" "False"
  | .none => "None"
  | .list _ => "[...]"
  | .dict _ => "\x7b...\x7d"

/-- The guard `"result" in entry and "value" in entry["result"]` that every
rule uses before reading a harvested value (short-circuit preserved). -/
def hasResultValue (entry : PyVal) : Except String Bool := do
  let hasRes ← pyIn "result" entry
  if hasRes then
    let res ← pyIndex entry "result"
    pyIn "value" res
  else
    pure false

/-- The guard `k in somef_data` followed by `isinstance(somef_data[k], list)`
with which every rule resolves an attribute's entry list: the entries when
the attribute is present and list-valued, nothing otherwise. -/
def attrEntries (somef : Record) (k : String) : Option (List PyVal) :=
  match dictLookup somef k with
  | some (.list xs) => some xs
  | _ => Option.none

/-! ### p009 — URL classifiers (`src/metacheck/scripts/pitfalls/p009.py`) -/

/-- The repository-URL indicator table of `is_repository_url` (p009). -/
def repo_indicators : List String :=
  ["github.com/", "github.org/", "gitlab.com/", "gitlab.org/",
   "bitbucket.org/", "bitbucket.net/", "sourceforge.net/projects/",
   "git.", ".git"]

/-- `is_repository_url` (p009): does the URL look like a code repository?
`github.io` wins over every repository indicator. -/
def is_repository_url (url : String) : Bool :=
  if url = "" then false
  else
    let url_lower := sLower url
    if strContains url_lower "github.io" then false
    else repo_indicators.any (fun ind => strContains url_lower ind)

/-- The homepage-URL indicator table of `is_homepage_url_repo` (p009). -/
def homepage_indicators : List String :=
  [".org/", ".com/", ".net/", ".io/", "www.", "docs.",
   "documentation", "readthedocs", "github.io"]

/-- `is_homepage_url_repo` (p009): does the URL look like a homepage?
A URL classified as a repository is never a homepage. -/
def is_homepage_url_repo (url : String) : Bool :=
  if url = "" then false
  else
    let url_lower := sLower url
    if is_repository_url url then false
    else homepage_indicators.any (fun ind => strContains url_lower ind)

/-- `is_homepage_url_repo` applied to an arbitrary harvested value, as
`detect_coderepository_homepage_pitfall` does: falsy values yield `False`,
a truthy non-string raises `AttributeError` at `url.lower()`. -/
def is_homepage_url_repoP (url : PyVal) : Except String Bool :=
  if pyTruthy url then
    match url with
    | .str s => .ok (is_homepage_url_repo s)
    | _ => .error "AttributeError"
  else .ok false

/-! ### p007 — `detect_citation_missing_reference_publication_pitfall`
(`src/metacheck/scripts/pitfalls/p007.py`) -/

/-- The `for entry in ref_pub_entries` loop of p007: the `elif` condition
`"CITATION.cff" in source` is evaluated exactly when
`technique == "code_parser" and "codemeta.json" in source` is false
(short-circuit preserved). -/
def p007RefLoop : List PyVal → Finding → Except String Finding
  | [], res => .ok res
  | entry :: rest, res => do
    let source ← pyGet entry "source" (.str "")
    let technique ← pyGet entry "technique" (.str "")
    let cond1 ←
      if pyEqStr technique "code_parser" then pyIn "codemeta.json" source
      else pure false
    if cond1 then do
      let hv ← hasResultValue entry
      p007RefLoop rest
        (if hv then dictSet res "codemeta_has_reference" (.bool true) else res)
    else do
      let cond2 ← pyIn "CITATION.cff" source
      if cond2 then do
        let hv ← hasResultValue entry
        p007RefLoop rest
          (if hv then dictSet res "citation_cff_has_reference" (.bool true) else res)
      else
        p007RefLoop rest res

/-- The inner `for entry in entries` loop of p007's second scan: `True`
as soon as one entry's source mentions `CITATION.cff` (the `break`). -/
def p007CffLoop : List PyVal → Except String Bool
  | [] => .ok false
  | entry :: rest => do
    let source ← pyGet entry "source" (.str "")
    let c ← pyIn "CITATION.cff" source
    if c then .ok true else p007CffLoop rest

/-- The `for category in citation_cff_sources` loop of p007, with the
early `break` once `result["citation_cff_exists"]` is truthy. -/
def p007CatLoop (somef : Record) : List String → Finding → Except String Finding
  | [], res => .ok res
  | cat :: rest, res => do
    let res' ←
      match attrEntries somef cat with
      | some entries => do
          let found ← p007CffLoop entries
          pure (if found then dictSet res "citation_cff_exists" (.bool true) else res)
      | Option.none => pure res
    if pyTruthy (findingGet res' "citation_cff_exists") then .ok res'
    else p007CatLoop somef rest res'

/-- The attribute names p007 scans for evidence that CITATION.cff exists. -/
def citation_cff_sources : List String :=
  ["authors", "title", "description", "version", "license"]

/-- `detect_citation_missing_reference_publication_pitfall` (p007). -/
def detect_citation_missing_reference_publication_pitfall
    (somef : Record) (file_name : String) : Except String Finding := do
  let res : Finding :=
    [("has_pitfall", .bool false),
     ("file_name", .str file_name),
     ("codemeta_has_reference", .bool false),
     ("citation_cff_has_reference", .bool false),
     ("citation_cff_exists", .bool false)]
  let res ←
    match attrEntries somef "reference_publication" with
    | some entries => p007RefLoop entries res
    | Option.none => pure res
  let res ← p007CatLoop somef citation_cff_sources res
  let res :=
    if pyTruthy (findingGet res "codemeta_has_reference") &&
       pyTruthy (findingGet res "citation_cff_exists") &&
       !pyTruthy (findingGet res "citation_cff_has_reference")
    then dictSet res "has_pitfall" (.bool true) else res
  .ok res

/-! ### p009 — `detect_coderepository_homepage_pitfall` -/

/-- The recognized structured-metadata source files (the `metadata_sources`
list of p009; the shared enumerated set of spec §4.1). -/
def metadata_sources : List String :=
  ["codemeta.json", "DESCRIPTION", "composer.json", "package.json",
   "pom.xml", "pyproject.toml", "requirements.txt", "setup.py"]

/-- Modelled from the spec: the helper `extract_metadata_source_filename`
(module `metacheck.utils.pitfall_utils`) is absent from the sources and
mocked in every test that touches it. Per §4.1 the recognized
configuration-file names form a fixed shared set matched case-insensitively
as substrings of the source string; the model returns the first recognized
file name the source string mentions, `None` otherwise. -/
def extract_metadata_source_filenameP (source : PyVal) : PyVal :=
  match source with
  | .str s =>
      match metadata_sources.find? (fun m => strContains (sLower s) (sLower m)) with
      | some m => .str m
      | Option.none => .none
  | _ => .none

/-- The `source if source else f"technique: {technique}"` expression of
p009's pitfall branch. -/
def p009SourceField (source technique : PyVal) : PyVal :=
  if pyTruthy source then source
  else .str ("technique: " ++ pyStrRepr technique)

/-- The `for entry in repo_entries` loop of p009, including the `break` on
the first metadata-source entry whose value looks like a homepage.
Short-circuit of `technique == "code_parser" or technique in
metadata_sources or any(src in source.lower() ...)` is preserved:
`source.lower()` is only evaluated when both earlier tests fail. -/
def p009Loop : List PyVal → Finding → Except String Finding
  | [], res => .ok res
  | entry :: rest, res => do
    let technique ← pyGet entry "technique" (.str "")
    let source ← pyGet entry "source" (.str "")
    let isMeta ←
      if pyEqStr technique "code_parser" then pure true
      else if metadata_sources.any (fun m => pyEqStr technique m) then pure true
      else do
        let sl ← pyLower source
        pure (metadata_sources.any (fun m => strContains sl m))
    if isMeta then do
      let hv ← hasResultValue entry
      if hv then do
        let resDict ← pyIndex entry "result"
        let repo_url ← pyIndex resDict "value"
        let isHome ← is_homepage_url_repoP repo_url
        if isHome then
          let r := dictSet res "has_pitfall" (.bool true)
          let r := dictSet r "repository_url" repo_url
          let r := dictSet r "source" (p009SourceField source technique)
          let r := dictSet r "metadata_source_file" (extract_metadata_source_filenameP source)
          let r := dictSet r "is_homepage" (.bool true)
          .ok r
        else p009Loop rest res
      else p009Loop rest res
    else p009Loop rest res

/-- `detect_coderepository_homepage_pitfall` (p009). -/
def detect_coderepository_homepage_pitfall
    (somef : Record) (file_name : String) : Except String Finding := do
  let res : Finding :=
    [("has_pitfall", .bool false),
     ("file_name", .str file_name),
     ("repository_url", .none),
     ("source", .none),
     ("metadata_source_file", .none),
     ("is_homepage", .bool false)]
  match attrEntries somef "code_repository" with
  | some entries => p009Loop entries res
  | Option.none => .ok res

/-! ### w006 — `detect_identifier_name_warning`
(`src/metacheck/scripts/warnings/w006.py`) -/

/-- `\d+/.+` matched (with `re.match`, i.e. anchored at the start only)
against `s`: a nonempty digit run, a slash, then at least one non-newline
character. Greediness of `\d+` is sound here because the character after
the digits must be `/`, which is not a digit. -/
def matchesDoiTail (s : String) : Bool :=
  let ds := s.data.takeWhile isDigitC
  match !ds.isEmpty, s.data.drop ds.length with
  | true, '/' :: c :: _ => c != '\n'
  | _, _ => false

/-- The two DOI patterns of `is_valid_identifier` (w006),
`^doi:10\.\d+/.+` and `^10\.\d+/.+`, both case-insensitive. -/
def matchesDoiPattern (s : String) : Bool :=
  let l := sLower s
  (sStarts l "doi:10." && matchesDoiTail (sDrop l 7)) ||
  (sStarts l "10." && matchesDoiTail (sDrop l 3))

/-- `.+` anchored at offset `n`: some character there, and not a newline
(`.` does not match a newline). -/
def nonNewlineAt (s : String) (n : Nat) : Bool :=
  match s.data.drop n with
  | c :: _ => c != '\n'
  | [] => false

/-- The URL pattern `^https?://.+` (case-insensitive) of
`is_valid_identifier` (w006). -/
def matchesUrlPattern (s : String) : Bool :=
  let l := sLower s
  (sStarts l "https://" && nonNewlineAt l 8) ||
  (sStarts l "http://" && nonNewlineAt l 7)

/-- `identifier.replace(' ', '').replace('-', '').replace('_', '')`. -/
def stripSepChars (s : String) : String :=
  ⟨s.data.filter (fun c => c != ' ' && c != '-' && c != '_')⟩

/-- Python `str.isalpha` (ASCII approximation, as in the test data):
nonempty and all alphabetic. -/
def pyIsAlpha (s : String) : Bool :=
  s != "" && s.data.all isAlphaC

/-- The body of `is_valid_identifier` (w006) on a nonempty string, after
the `None`/non-string guard. -/
def is_valid_identifier_str (ident : String) : Bool :=
  let identifier := sTrim ident
  if identifier = "" then false
  else if matchesDoiPattern identifier then true
  else if sLower identifier = "doi:" || sLower identifier = "10." then false
  else if matchesUrlPattern identifier then true
  else if sStarts (sLower identifier) "ftp://" then false
  else if strContains identifier " " &&
          !(strContains identifier "/" || strContains identifier ":" ||
            strContains identifier ".") then false
  else if pyIsAlpha (stripSepChars identifier) then false
  else true

/-- `is_valid_identifier` (w006): falsy or non-string values are invalid;
total, never raises. -/
def is_valid_identifier (v : PyVal) : Bool :=
  match v with
  | .str s => if s = "" then false else is_valid_identifier_str s
  | _ => false

/-- The `is_codemeta` classifier used in both loops of w006:
`"codemeta.json" in source.lower() or (technique == "code_parser" and
"codemeta" in source.lower())`; `source.lower()` is evaluated first and
raises on a non-string source. -/
def isCodemetaEntry (source technique : PyVal) : Except String Bool := do
  let sl ← pyLower source
  if strContains sl "codemeta.json" then pure true
  else if pyEqStr technique "code_parser" then pure (strContains sl "codemeta")
  else pure false

/-- The first loop of `detect_identifier_name_warning`: find the first
codemeta-classified entry carrying `result.value` (the `break`), returning
its value and source. -/
def w006CodemetaLoop : List PyVal → Except String (Option (PyVal × PyVal))
  | [] => .ok Option.none
  | entry :: rest => do
    let source ← pyGet entry "source" (.str "")
    let technique ← pyGet entry "technique" (.str "")
    let isCm ← isCodemetaEntry source technique
    if isCm then do
      let hv ← hasResultValue entry
      if hv then do
        let resDict ← pyIndex entry "result"
        let v ← pyIndex resDict "value"
        .ok (some (v, source))
      else w006CodemetaLoop rest
    else w006CodemetaLoop rest

/-- The second loop of `detect_identifier_name_warning`: collect, in
extraction order, the `(value, source)` pairs of every non-codemeta entry
whose `result.value` passes `is_valid_identifier`. -/
def w006OtherLoop : List PyVal → Except String (List (PyVal × PyVal))
  | [] => .ok []
  | entry :: rest => do
    let source ← pyGet entry "source" (.str "")
    let technique ← pyGet entry "technique" (.str "")
    let isCm ← isCodemetaEntry source technique
    if isCm then w006OtherLoop rest
    else do
      let hv ← hasResultValue entry
      if hv then do
        let resDict ← pyIndex entry "result"
        let v ← pyIndex resDict "value"
        if is_valid_identifier v then do
          let tail ← w006OtherLoop rest
          .ok ((v, source) :: tail)
        else w006OtherLoop rest
      else w006OtherLoop rest

/-- `detect_identifier_name_warning` (w006). -/
def detect_identifier_name_warning
    (somef : Record) (file_name : String) : Except String Finding := do
  let res : Finding :=
    [("has_warning", .bool false),
     ("file_name", .str file_name),
     ("codemeta_identifier", .none),
     ("other_identifier", .none),
     ("codemeta_source", .none),
     ("other_source", .none),
     ("has_valid_identifier_elsewhere", .bool false),
     ("other_identifiers", .list [])]
  match attrEntries somef "identifier" with
  | some entries => do
      let cm ← w006CodemetaLoop entries
      let others ← w006OtherLoop entries
      let codemeta_identifier := (cm.map Prod.fst).getD .none
      let codemeta_source := (cm.map Prod.snd).getD .none
      let other_identifier := ((others.head?).map Prod.fst).getD .none
      let other_source := ((others.head?).map Prod.snd).getD .none
      let res := dictSet res "codemeta_identifier" codemeta_identifier
      let res := dictSet res "codemeta_source" codemeta_source
      let res := dictSet res "other_identifier" other_identifier
      let res := dictSet res "other_source" other_source
      let res := dictSet res "other_identifiers"
        (.list (others.map (fun p => .dict [("value", p.1), ("source", p.2)])))
      let res := dictSet res "has_valid_identifier_elsewhere"
        (.bool (!others.isEmpty))
      let res :=
        if pyTruthy codemeta_identifier &&
           !is_valid_identifier codemeta_identifier &&
           pyTruthy other_identifier
        then dictSet res "has_warning" (.bool true) else res
      .ok res
  | Option.none => .ok res

/-! ### Further string primitives used by the modelled rules -/

/-- Does the character list end with the pattern list? -/
def listEnds (xs pat : List Char) : Bool :=
  listStarts xs.reverse pat.reverse

/-- `s.endswith(pat)`. -/
def sEnds (s pat : String) : Bool :=
  listEnds s.data pat.data

/-- `s[:-n]`. -/
def sDropRight (s : String) (n : Nat) : String :=
  ⟨s.data.take (s.data.length - n)⟩

/-- `s.rstrip('/')`. -/
def sDropTrailingSlashes (s : String) : String :=
  ⟨(s.data.reverse.dropWhile (fun c => c = '/')).reverse⟩

/-- Split a character list at the first occurrence of a pattern,
returning the parts before and after it. -/
def splitFirstSub : List Char → List Char → Option (List Char × List Char)
  | [], _ => Option.none
  | x :: xs, pat =>
      if listStarts (x :: xs) pat then some ([], (x :: xs).drop pat.length)
      else
        match splitFirstSub xs pat with
        | some (pre, post) => some (x :: pre, post)
        | Option.none => Option.none

/-! ### p012 — `normalize_version` (module absent from the sources) -/

/-- A character `normalize_version` strips from the front of its input:
surrounding whitespace or the case-insensitive `v` prefix. -/
def isVersionStripC (c : Char) : Bool :=
  isSpaceC c || c = 'v' || c = 'V'

/-- Strip trailing whitespace from a character list. -/
def trimTrailing (xs : List Char) : List Char :=
  (xs.reverse.dropWhile isSpaceC).reverse

/-- Modelled from the spec: module p012 is absent from the sources. §4.2
and §8 fix `normalize_version` as stripping surrounding whitespace and a
leading `v`/`V` case-insensitively, and require the normalization to be
idempotent (`normalize(normalize(x)) == normalize(x)` for every input),
so the stripping is carried to a fixed point: the maximal leading run of
whitespace and `v`/`V` characters is removed along with trailing
whitespace, and an input left empty — `None`, `""`, a whitespace-only
string — maps to `None`. This matches every active case of
`test_p012.py` (`("", None)`, `(None, None)`, `("  v1.2.3  ", "1.2.3")`,
`("V2.0.0", "2.0.0")`, …). -/
def normalize_version : Option String → Option String
  | Option.none => Option.none
  | some s =>
      match trimTrailing (s.data.dropWhile isVersionStripC) with
      | [] => Option.none
      | l => some ⟨l⟩

/-! ### p001 — version-mismatch rule (module absent from the sources) -/

/-- Modelled from the spec: p001's local normalization of a version
string (§4.2: "normalizes both (strip leading `v`/`V`, trim whitespace)"). -/
def normalizeVersionStr (s : String) : String :=
  let t := sTrim s
  if sStarts t "v" || sStarts t "V" then sDrop t 1 else t

/-- Modelled from the spec: does a source string name a recognized
structured-metadata file (§4.1: case-insensitive substring matching
against the shared enumerated set)? -/
def isMetadataSourceStr (s : String) : Bool :=
  metadata_sources.any (fun m => strContains (sLower s) (sLower m))

/-- Modelled from the spec: `extract_version_from_metadata` (p001).
First entry of the `version` attribute whose provenance is a recognized
structured-metadata file (source either at the top level of the entry or
nested inside `result`, as exercised by `test_p001.py`), returning the
source string and the version value; nothing on absent/ill-shaped data. -/
def entryMetaVersion (e : PyVal) : Option (String × String) :=
  match e with
  | .dict kvs =>
      let src :=
        match dictLookup kvs "source" with
        | some (.str s) => some s
        | _ =>
            match dictLookup kvs "result" with
            | some (.dict rkvs) =>
                match dictLookup rkvs "source" with
                | some (.str s) => some s
                | _ => Option.none
            | _ => Option.none
      match src with
      | some s =>
          if isMetadataSourceStr s then
            match dictLookup kvs "result" with
            | some (.dict rkvs) =>
                match dictLookup rkvs "value" with
                | some (.str v) => some (s, v)
                | _ => Option.none
            | _ => Option.none
          else Option.none
      | Option.none => Option.none
  | _ => Option.none

/-- Modelled from the spec: scan the `version` entries in extraction
order, first structured-metadata match wins (§4.1 "first match"). -/
def firstMetaVersion : List PyVal → Option (String × String)
  | [] => Option.none
  | e :: rest =>
      match entryMetaVersion e with
      | some p => some p
      | Option.none => firstMetaVersion rest

/-- Modelled from the spec: `extract_version_from_metadata` (p001). -/
def extract_version_from_metadata (somef : Record) : Option (String × String) :=
  match dictLookup somef "version" with
  | some (.list entries) => firstMetaVersion entries
  | _ => Option.none

/-- Modelled from the spec: `extract_latest_release_version` (p001) — the
tag of the first (latest) entry of `releases`, read from the entry itself
or from its nested `result`, nothing on absent/ill-shaped data
(behaviour fixed by `test_p001.py`). -/
def extract_latest_release_version (somef : Record) : Option String :=
  match dictLookup somef "releases" with
  | some (.list (e :: _)) =>
      (match e with
       | .dict kvs =>
           (match dictLookup kvs "tag" with
            | some (.str t) => some t
            | _ =>
                match dictLookup kvs "result" with
                | some (.dict rkvs) =>
                    (match dictLookup rkvs "tag" with
                     | some (.str t) => some t
                     | _ => Option.none)
                | _ => Option.none)
       | _ => Option.none)
  | _ => Option.none

/-- Modelled from the spec: `detect_version_mismatch` (p001, §4.2):
resolve a structured-metadata version and a release tag, normalize both,
issue iff both resolve, the normalized strings differ and both are
nonempty; the Finding always carries the full field set. -/
def detect_version_mismatch (somef : Record) (file_name : String) : Finding :=
  let base : Finding :=
    [("has_pitfall", .bool false),
     ("file_name", .str file_name),
     ("metadata_version", .none),
     ("release_version", .none),
     ("metadata_source", .none),
     ("metadata_source_file", .none)]
  match extract_version_from_metadata somef, extract_latest_release_version somef with
  | some (src, mv), some rv =>
      let nmv := normalizeVersionStr mv
      let nrv := normalizeVersionStr rv
      let res := dictSet base "metadata_version" (.str nmv)
      let res := dictSet res "release_version" (.str nrv)
      if nmv ≠ nrv ∧ nmv ≠ "" ∧ nrv ≠ "" then
        let res := dictSet res "has_pitfall" (.bool true)
        let res := dictSet res "metadata_source" (.str src)
        dictSet res "metadata_source_file" (extract_metadata_source_filenameP (.str src))
      else res
  | _, _ => base

/-! ### p016 — divergent-repository rule (module absent from the sources) -/

/-- Modelled from the spec: `normalize_repository_url` (p016, §4.2):
lowercase, strip a `git+` prefix, rewrite the SSH form
`git@host:path` to `https://host/path`, strip trailing slashes and a
`.git` suffix; falsy input maps to the empty string (behaviour fixed by
`test_p016.py`). -/
def normalize_repository_url (url : String) : String :=
  if url = "" then ""
  else
    let l := sLower url
    let l := if sStarts l "git+" then sDrop l 4 else l
    let l :=
      if sStarts l "git@" then
        "https://" ++ String.mk ((sDrop l 4).data.map (fun c => if c = ':' then '/' else c))
      else l
    let l := sDropTrailingSlashes l
    let l := if sEnds l ".git" then sDropRight l 4 else l
    sDropTrailingSlashes l

/-- Modelled from the spec: the API-derived repository URL of p016 — the
first `code_repository` entry harvested by the `GitHub_API` technique
carrying a string `result.value` (behaviour fixed by `test_p016.py`). -/
def p016ApiUrl : List PyVal → Option String
  | [] => Option.none
  | e :: rest =>
      match e with
      | .dict kvs =>
          (match
             (if pyEqStr ((dictLookup kvs "technique").getD (.str "")) "GitHub_API" then
                match dictLookup kvs "result" with
                | some (.dict rkvs) =>
                    (match dictLookup rkvs "value" with
                     | some (.str v) => some v
                     | _ => Option.none)
                | _ => Option.none
              else Option.none) with
           | some v => some v
           | Option.none => p016ApiUrl rest)
      | _ => p016ApiUrl rest

/-- Modelled from the spec: the metadata-declared repository URLs of p016
— every `code_repository` entry whose source mentions `codemeta.json`
(case-insensitively) and that carries a string `result.value`, in
extraction order (behaviour fixed by `test_p016.py`, which has p016
ignore non-codemeta metadata sources such as `package.json`). -/
def p016MetaUrls : List PyVal → List String
  | [] => []
  | e :: rest =>
      match e with
      | .dict kvs =>
          (match
             (match dictLookup kvs "source" with
              | some (.str s) =>
                  if strContains (sLower s) "codemeta.json" then
                    match dictLookup kvs "result" with
                    | some (.dict rkvs) =>
                        (match dictLookup rkvs "value" with
                         | some (.str v) => some v
                         | _ => Option.none)
                    | _ => Option.none
                  else Option.none
              | _ => Option.none) with
           | some v => v :: p016MetaUrls rest
           | Option.none => p016MetaUrls rest)
      | _ => p016MetaUrls rest

/-- Modelled from the spec: `detect_different_repository_pitfall` (p016,
§4.2): issue iff some codemeta-declared repository URL differs from the
API-derived URL after normalization; collects *all* divergent URLs
(the documented aggregate exception). -/
def detect_different_repository_pitfall (somef : Record) (file_name : String) : Finding :=
  let base : Finding :=
    [("has_pitfall", .bool false),
     ("file_name", .str file_name),
     ("github_api_url", .none),
     ("metadata_urls", .list []),
     ("different_urls", .list [])]
  match dictLookup somef "code_repository" with
  | some (.list entries) =>
      let metas := p016MetaUrls entries
      let res := dictSet base "metadata_urls" (.list (metas.map PyVal.str))
      match p016ApiUrl entries with
      | some api =>
          let divergent := metas.filter
            (fun m => normalize_repository_url m ≠ normalize_repository_url api)
          if divergent.isEmpty then res
          else
            let res := dictSet res "has_pitfall" (.bool true)
            let res := dictSet res "github_api_url" (.str api)
            dictSet res "different_urls" (.list (divergent.map PyVal.str))
      | Option.none => res
  | _ => base

/-! ### p008 / p015 — URL accessibility probes (modules absent from the
sources) -/

/-- The outcome of the single network probe a URL check performs: either
an HTTP response with a status code, or a network-level failure
(timeout, connection refused, DNS failure) described by a message. The
network is a parameter of the model, so "no network I/O" is expressed as
the result not depending on it. -/
inductive NetResult where
  | status (code : Nat)
  | failure (msg : String)
deriving DecidableEq

/-- The result dict of a URL accessibility check. -/
structure UrlStatus where
  is_accessible : Bool
  status_code : Option Nat
  error : Option String
deriving DecidableEq

/-- Characters legal in a URL scheme after the leading letter. -/
def schemeTailC (c : Char) : Bool :=
  isAlphaC c || isDigitC c || c = '+' || c = '-' || c = '.'

/-- Modelled from the spec: `is_valid_url_format` (p008) — §4.3 "must
have a scheme and non-empty host-like component", i.e. the
`urllib.parse.urlparse` test `bool(scheme and netloc)`; the scheme is a
letter followed by letters/digits/`+`/`-`/`.` before `://`, the netloc
the nonempty run before the next `/` (behaviour fixed by
`test_p008.py`). -/
def is_valid_url_format_p008 (url : String) : Bool :=
  match splitFirstSub url.data "://".data with
  | some (scheme, rest) =>
      (match scheme with
       | c :: cs => isAlphaC c && cs.all schemeTailC
       | [] => false) &&
      !(rest.takeWhile (fun c => c != '/')).isEmpty
  | Option.none => false

/-- Modelled from the spec: `is_valid_url_format` (p015) — same
`urlparse`-shaped validation (behaviour fixed by `test_p015.py`). -/
def is_valid_url_format_p015 (url : String) : Bool :=
  match splitFirstSub url.data "://".data with
  | some (scheme, rest) =>
      (match scheme with
       | c :: cs => isAlphaC c && cs.all schemeTailC
       | [] => false) &&
      !(rest.takeWhile (fun c => c != '/')).isEmpty
  | Option.none => false

/-- Modelled from the spec: `check_url_status` (p008, §4.3): an invalid
URL yields `is_accessible=False, error="Invalid URL format"` without
touching the network; a response in 2xx/3xx is accessible, 4xx/5xx is
inaccessible with the code recorded; a network failure yields
`status_code=None` and the error description. Timeout and header
configuration are pure I/O parameters and are elided. -/
def check_url_status (url : String) (net : NetResult) : UrlStatus :=
  if is_valid_url_format_p008 url then
    match net with
    | .status c => ⟨decide (200 ≤ c ∧ c < 400), some c, Option.none⟩
    | .failure msg => ⟨false, Option.none, some msg⟩
  else ⟨false, Option.none, some "Invalid URL format"⟩

/-- Modelled from the spec: `check_ci_url_status` (p015): as
`check_url_status`, except that the repository's own test suite
(`test_p015.py`) fixes the classification of redirect codes: 301 and 302
count as accessible but 300 does not (the probe follows redirects, so
only the final code matters). -/
def check_ci_url_status (url : String) (net : NetResult) : UrlStatus :=
  if is_valid_url_format_p015 url then
    match net with
    | .status c => ⟨decide ((200 ≤ c ∧ c < 300) ∨ c = 301 ∨ c = 302), some c, Option.none⟩
    | .failure msg => ⟨false, Option.none, some msg⟩
  else ⟨false, Option.none, some "Invalid URL format"⟩

/-! ### Batch aggregation (module absent from the sources) -/

/-- Per-repository trigger table: check id to `has_issue` (absent checks
did not trigger). -/
def reportLookup : List (String × Bool) → String → Bool
  | [], _ => false
  | (k, b) :: rest, c => if k = c then b else reportLookup rest c

/-- Modelled from the spec: the aggregate trigger count of one check over
a batch (§4.4 `Recording`: fold `has_issue` counts per check id). -/
def count_triggered (reports : List (List (String × Bool))) (check : String) : Nat :=
  (reports.filter (fun r => reportLookup r check)).length

/-- Round a rational to two decimal places (round-half-up, not
truncation). -/
def roundTo2 (q : ℚ) : ℚ := (round (q * 100) : ℤ) / 100

/-- Modelled from the spec: the aggregate percentage of one check (§4.4
terminal state: `count_triggered / total_repos_considered * 100`, rounded
to two decimals). -/
def aggregate_percentage (reports : List (List (String × Bool))) (check : String) : ℚ :=
  if reports.length = 0 then 0
  else roundTo2 ((count_triggered reports check : ℚ) / (reports.length : ℚ) * 100)

/-! ### Well-typedness of harvested records

`entryWT` captures the shape assumptions under which the rule bodies are
exception-free: an entry is a dict whose `source`/`technique` values (when
present) are strings, whose `result` (when present) is a dict, and whose
`result.value` (when present) is a string. -/

/-- Well-typed extraction entry. -/
def entryWT (e : PyVal) : Bool :=
  match e with
  | .dict kvs =>
      (match dictLookup kvs "source" with
       | some (.str _) => true
       | some _ => false
       | Option.none => true) &&
      (match dictLookup kvs "technique" with
       | some (.str _) => true
       | some _ => false
       | Option.none => true) &&
      (match dictLookup kvs "result" with
       | some (.dict rkvs) =>
           (match dictLookup rkvs "value" with
            | some (.str _) => true
            | some _ => false
            | Option.none => true)
       | some _ => false
       | Option.none => true)
  | _ => false

/-- Well-typed record: every list-valued attribute holds well-typed
entries. -/
def recordWT (somef : Record) : Bool :=
  somef.all (fun kv =>
    match kv.2 with
    | .list xs => xs.all entryWT
    | _ => true)

/-! ### Declarative views of the w006 loops -/

/-- The `source` an entry's `entry.get("source", "")` yields (dicts only;
the loops raise on non-dict entries). -/
def entrySourceVal (e : PyVal) : PyVal :=
  match e with
  | .dict kvs => (dictLookup kvs "source").getD (.str "")
  | _ => .str ""

/-- The `technique` an entry's `entry.get("technique", "")` yields. -/
def entryTechniqueVal (e : PyVal) : PyVal :=
  match e with
  | .dict kvs => (dictLookup kvs "technique").getD (.str "")
  | _ => .str ""

/-- Declarative `is_codemeta` classification of one entry (total; agrees
with `isCodemetaEntry` on every entry the loop traverses without
raising). -/
def isCodemetaB (e : PyVal) : Bool :=
  match entrySourceVal e with
  | .str s =>
      strContains (sLower s) "codemeta.json" ||
      (pyEqStr (entryTechniqueVal e) "code_parser" && strContains (sLower s) "codemeta")
  | _ => false

/-- The harvested `result.value` of an entry, when `result` is a dict
carrying one. -/
def entryValue (e : PyVal) : Option PyVal :=
  match e with
  | .dict kvs =>
      match dictLookup kvs "result" with
      | some (.dict rkvs) => dictLookup rkvs "value"
      | _ => Option.none
  | _ => Option.none

/-- Declarative view of w006's second loop: the `(value, source)` pairs
of the non-codemeta entries whose harvested value is a valid identifier,
in extraction order. -/
def w006OtherSpec (entries : List PyVal) : List (PyVal × PyVal) :=
  (entries.filter (fun e =>
      !isCodemetaB e &&
      (match entryValue e with
       | some v => is_valid_identifier v
       | Option.none => false))).map
    (fun e => ((entryValue e).getD .none, entrySourceVal e))

/-! ### State-instrumented rule bodies

`p007Fr`/`p009Fr` re-embed p007 and p009 threading the record through
every read (`readAttr`), returning the final record next to the result:
proving the returned record equal to the input one certifies that the
embedded bodies contain no write to `somef_data`. -/

/-- The single primitive through which the instrumented bodies touch the
record: a read, returning the record it leaves behind. -/
def readAttr (somef : Record) (k : String) : Option (List PyVal) × Record :=
  (attrEntries somef k, somef)

/-- State-instrumented `for category in citation_cff_sources` loop of
p007. -/
def p007CatLoopFr : Record → List String → Finding → (Except String Finding) × Record
  | somef, [], res => (.ok res, somef)
  | somef, cat :: rest, res =>
      let (attr, somef) := readAttr somef cat
      match
        (match attr with
         | some entries =>
             (p007CffLoop entries).map
               (fun (found : Bool) =>
                 if found then dictSet res "citation_cff_exists" (.bool true) else res)
         | Option.none => .ok res) with
      | .error e => (.error e, somef)
      | .ok res' =>
          if pyTruthy (findingGet res' "citation_cff_exists") then (.ok res', somef)
          else p007CatLoopFr somef rest res'

/-- State-instrumented `detect_citation_missing_reference_publication_pitfall`. -/
def p007Fr (somef : Record) (file_name : String) : (Except String Finding) × Record :=
  let res : Finding :=
    [("has_pitfall", .bool false),
     ("file_name", .str file_name),
     ("codemeta_has_reference", .bool false),
     ("citation_cff_has_reference", .bool false),
     ("citation_cff_exists", .bool false)]
  let (attr, somef) := readAttr somef "reference_publication"
  match
    (match attr with
     | some entries => p007RefLoop entries res
     | Option.none => .ok res) with
  | .error e => (.error e, somef)
  | .ok res1 =>
      match p007CatLoopFr somef citation_cff_sources res1 with
      | (.error e, somef') => (.error e, somef')
      | (.ok res2, somef') =>
          (.ok
            (if pyTruthy (findingGet res2 "codemeta_has_reference") &&
                pyTruthy (findingGet res2 "citation_cff_exists") &&
                !pyTruthy (findingGet res2 "citation_cff_has_reference")
             then dictSet res2 "has_pitfall" (.bool true) else res2), somef')

/-- State-instrumented `detect_coderepository_homepage_pitfall`. -/
def p009Fr (somef : Record) (file_name : String) : (Except String Finding) × Record :=
  let res : Finding :=
    [("has_pitfall", .bool false),
     ("file_name", .str file_name),
     ("repository_url", .none),
     ("source", .none),
     ("metadata_source_file", .none),
     ("is_homepage", .bool false)]
  let (attr, somef) := readAttr somef "code_repository"
  match attr with
  | some entries => (p009Loop entries res, somef)
  | Option.none => (.ok res, somef)

/-! ### Concrete records used in the theorems below -/

/-- The version-mismatch scenario of the claim: structured-metadata
version `"1.2.3"`, release tag `"v2.0.0"`. -/
def c5MismatchRecord : Record :=
  [("version", .list [.dict [("source", .str "repo/package.json"),
     ("result", .dict [("value", .str "1.2.3")])]]),
   ("releases", .list [.dict [("tag", .str "v2.0.0")]])]

/-- A record with a release tag but no structured-metadata version. -/
def c5MissingRecord : Record :=
  [("releases", .list [.dict [("tag", .str "v1.0.0")]])]

/-- A record whose API URL and package.json-declared repository URL
diverge: `package.json` is a recognized structured-metadata source, yet
p016 ignores it. -/
def c6PackageJsonRecord : Record :=
  [("code_repository", .list
    [.dict [("source", .str "GitHub_API"), ("technique", .str "GitHub_API"),
            ("result", .dict [("value", .str "https://github.com/user/repo1")])],
     .dict [("source", .str "repository/package.json"), ("technique", .str "code_parser"),
            ("result", .dict [("value", .str "https://github.com/user/repo2")])]])]

/-- The divergent scenario of the claim: API URL `.../repo1`, codemeta
URL `.../repo2`. -/
def c6DivergentRecord : Record :=
  [("code_repository", .list
    [.dict [("source", .str "GitHub_API"), ("technique", .str "GitHub_API"),
            ("result", .dict [("value", .str "https://github.com/user/repo1")])],
     .dict [("source", .str "repository/codemeta.json"), ("technique", .str "code_parser"),
            ("result", .dict [("value", .str "https://github.com/user/repo2")])]])]

/-- The `.git`-suffix scenario of the claim: URLs equal after
normalization. -/
def c6GitSuffixRecord : Record :=
  [("code_repository", .list
    [.dict [("source", .str "GitHub_API"), ("technique", .str "GitHub_API"),
            ("result", .dict [("value", .str "https://github.com/user/repo")])],
     .dict [("source", .str "repository/codemeta.json"), ("technique", .str "code_parser"),
            ("result", .dict [("value", .str "https://github.com/user/repo.git")])]])]

/-! ## Theorems -/

/-! ### Infrastructure lemmas -/

lemma okBind {α β : Type} (a : α) (f : α → Except String β) :
    (Except.ok a >>= f) = f a := rfl

lemma errBind {α β : Type} (e : String) (f : α → Except String β) :
    ((Except.error e : Except String α) >>= f) = Except.error e := rfl

lemma pureOk {α : Type} (a : α) : (pure a : Except String α) = Except.ok a := rfl

lemma dictLookup_dictSet_ne (kvs : PyDict) (k k' : String) (v : PyVal) (h : k' ≠ k) :
    dictLookup (dictSet kvs k' v) k = dictLookup kvs k := by
  induction kvs with
  | nil => simp [dictSet, dictLookup, h]
  | cons kv rest ih =>
    obtain ⟨k₀, v₀⟩ := kv
    by_cases he : k₀ = k'
    · subst he
      simp [dictSet, dictLookup, h]
    · simp [dictSet, dictLookup, he, ih]

lemma keys_dictSet_of_mem (kvs : PyDict) (k : String) (v : PyVal)
    (h : k ∈ kvs.map Prod.fst) :
    (dictSet kvs k v).map Prod.fst = kvs.map Prod.fst := by
  induction kvs with
  | nil => simp at h
  | cons kv rest ih =>
    obtain ⟨k₀, v₀⟩ := kv
    by_cases he : k₀ = k
    · simp [dictSet, he]
    · have hk : k ∈ rest.map Prod.fst := by
        rw [List.map_cons, List.mem_cons] at h
        rcases h with h1 | h1
        · exact absurd h1.symm he
        · exact h1
      simp [dictSet, he, ih hk]

lemma dictLookup_none_of_anyKey_false (kvs : PyDict) (k : String)
    (h : kvs.any (fun kv => kv.1 = k) = false) :
    dictLookup kvs k = Option.none := by
  induction kvs with
  | nil => rfl
  | cons kv rest ih =>
    obtain ⟨k₀, v₀⟩ := kv
    simp only [List.any_cons, Bool.or_eq_false_iff] at h
    have hne : k₀ ≠ k := by simpa using h.1
    simp [dictLookup, hne, ih h.2]

lemma anyKey_true_of_dictLookup_some (kvs : PyDict) (k : String) (v : PyVal)
    (h : dictLookup kvs k = some v) :
    kvs.any (fun kv => kv.1 = k) = true := by
  induction kvs with
  | nil => simp [dictLookup] at h
  | cons kv rest ih =>
    obtain ⟨k₀, v₀⟩ := kv
    by_cases he : k₀ = k
    · simp [he]
    · rw [dictLookup, if_neg he] at h
      simp [ih h]

lemma dictLookup_mem (kvs : PyDict) (k : String) (v : PyVal)
    (h : dictLookup kvs k = some v) : (k, v) ∈ kvs := by
  induction kvs with
  | nil => exact Option.noConfusion h
  | cons kv rest ih =>
    obtain ⟨k₀, v₀⟩ := kv
    by_cases he : k₀ = k
    · subst he
      rw [dictLookup, if_pos rfl] at h
      cases h
      exact List.mem_cons_self _ _
    · rw [dictLookup, if_neg he] at h
      exact List.mem_cons_of_mem _ (ih h)

lemma dictLookup_some_of_anyKey_true (kvs : PyDict) (k : String)
    (h : kvs.any (fun kv => kv.1 = k) = true) :
    ∃ v, dictLookup kvs k = some v := by
  induction kvs with
  | nil => simp at h
  | cons kv rest ih =>
    obtain ⟨k₀, v₀⟩ := kv
    by_cases he : k₀ = k
    · exact ⟨v₀, by rw [dictLookup, if_pos he]⟩
    · have h2 : k₀ = k ∨ rest.any (fun kv => kv.1 = k) = true := by
        simpa using h
      rcases h2 with h1 | h1
      · exact absurd h1 he
      · obtain ⟨v, hv⟩ := ih h1
        exact ⟨v, by rw [dictLookup, if_neg he]; exact hv⟩

lemma pyGet_ok (e : PyVal) (k : String) (d v : PyVal) (h : pyGet e k d = .ok v) :
    ∃ kvs, e = .dict kvs ∧ v = (dictLookup kvs k).getD d := by
  cases e with
  | dict kvs =>
    rw [pyGet] at h
    cases h
    exact ⟨kvs, rfl, rfl⟩
  | none => exact Except.noConfusion h
  | bool b => exact Except.noConfusion h
  | int n => exact Except.noConfusion h
  | str s => exact Except.noConfusion h
  | list xs => exact Except.noConfusion h

lemma pyIndex_ok (e : PyVal) (k : String) (v : PyVal) (h : pyIndex e k = .ok v) :
    ∃ kvs, e = .dict kvs ∧ dictLookup kvs k = some v := by
  cases e with
  | dict kvs =>
    rw [pyIndex] at h
    cases hl : dictLookup kvs k with
    | none =>
      rw [hl] at h
      exact Except.noConfusion h
    | some w =>
      rw [hl] at h
      cases h
      exact ⟨kvs, rfl, hl⟩
  | none => exact Except.noConfusion h
  | bool b => exact Except.noConfusion h
  | int n => exact Except.noConfusion h
  | str s => exact Except.noConfusion h
  | list xs => exact Except.noConfusion h

lemma isCodemetaEntry_ok (source technique : PyVal) (b : Bool)
    (h : isCodemetaEntry source technique = .ok b) :
    ∃ s, source = .str s ∧
      b = (strContains (sLower s) "codemeta.json" ||
           (pyEqStr technique "code_parser" && strContains (sLower s) "codemeta")) := by
  cases source with
  | str s =>
    refine ⟨s, rfl, ?_⟩
    have h' : (if strContains (sLower s) "codemeta.json" = true then pure true
        else if pyEqStr technique "code_parser" = true
        then pure (strContains (sLower s) "codemeta")
        else (pure false : Except String Bool)) = .ok b := h
    cases hc0 : strContains (sLower s) "codemeta.json" with
    | true =>
      rw [if_pos hc0] at h'
      cases h'
      simp [hc0]
    | false =>
      rw [if_neg (by rw [hc0]; exact Bool.false_ne_true)] at h'
      cases hcp : pyEqStr technique "code_parser" with
      | true =>
        rw [if_pos hcp] at h'
        cases h'
        simp [hc0, hcp]
      | false =>
        rw [if_neg (by rw [hcp]; exact Bool.false_ne_true)] at h'
        cases h'
        simp [hc0, hcp]
  | none => exact Except.noConfusion h
  | bool b' => exact Except.noConfusion h
  | int n => exact Except.noConfusion h
  | list xs => exact Except.noConfusion h
  | dict kvs => exact Except.noConfusion h

lemma isCodemetaEntry_okAlways (s : String) (technique : PyVal) :
    isCodemetaEntry (.str s) technique =
      .ok (strContains (sLower s) "codemeta.json" ||
           (pyEqStr technique "code_parser" && strContains (sLower s) "codemeta")) := by
  have h' : isCodemetaEntry (.str s) technique =
      (if strContains (sLower s) "codemeta.json" = true then pure true
       else if pyEqStr technique "code_parser" = true
       then pure (strContains (sLower s) "codemeta")
       else (pure false : Except String Bool)) := rfl
  rw [h']
  cases hc0 : strContains (sLower s) "codemeta.json" <;>
    cases hcp : pyEqStr technique "code_parser" <;> simp [pureOk]

lemma hasResultValue_false_entryValue (kvs : PyDict)
    (h : hasResultValue (.dict kvs) = .ok false) :
    entryValue (.dict kvs) = Option.none := by
  have hev : entryValue (.dict kvs) =
      (match dictLookup kvs "result" with
       | some (.dict rkvs) => dictLookup rkvs "value"
       | _ => Option.none) := rfl
  have h' : (Except.ok (kvs.any (fun kv => kv.1 = "result")) >>= fun hasRes =>
      if hasRes = true then
        pyIndex (.dict kvs) "result" >>= fun res => pyIn "value" res
      else pure false) = Except.ok false := h
  rw [okBind] at h'
  cases hany : kvs.any (fun kv => kv.1 = "result") with
  | false =>
    have hl := dictLookup_none_of_anyKey_false kvs "result" hany
    rw [hev, hl]
  | true =>
    rw [hany] at h'
    obtain ⟨r, hr⟩ := dictLookup_some_of_anyKey_true kvs "result" hany
    have hidx : pyIndex (.dict kvs) "result" = .ok r := by
      rw [pyIndex, hr]
    rw [if_pos rfl, hidx, okBind] at h'
    cases r with
    | dict rkvs =>
      have h'' : Except.ok (rkvs.any (fun kv => kv.1 = "value")) = Except.ok false := h'
      injection h'' with h3
      rw [hev, hr]
      exact dictLookup_none_of_anyKey_false rkvs "value" h3
    | str s => rw [hev, hr]
    | list xs => rw [hev, hr]
    | none => exact Except.noConfusion h'
    | bool b => exact Except.noConfusion h'
    | int n => exact Except.noConfusion h'

lemma entryValue_of_pyIndex (e r v : PyVal)
    (hri : pyIndex e "result" = .ok r) (hrv : pyIndex r "value" = .ok v) :
    entryValue e = some v := by
  obtain ⟨kvs, rfl, hr⟩ := pyIndex_ok e "result" r hri
  obtain ⟨rkvs, rfl, hv⟩ := pyIndex_ok r "value" v hrv
  have hev : entryValue (.dict kvs) =
      (match dictLookup kvs "result" with
       | some (.dict rkvs) => dictLookup rkvs "value"
       | _ => Option.none) := rfl
  rw [hev, hr]
  exact hv

lemma w006OtherLoop_spec :
    ∀ (entries : List PyVal) (others : List (PyVal × PyVal)),
      w006OtherLoop entries = .ok others → others = w006OtherSpec entries := by
  intro entries
  induction entries with
  | nil =>
    intro others h
    simp only [w006OtherLoop] at h
    cases h
    rfl
  | cons e rest ih =>
    intro others h
    simp only [w006OtherLoop] at h
    cases hsg : pyGet e "source" (.str "") with
    | error err =>
      rw [hsg, errBind] at h
      exact Except.noConfusion h
    | ok source =>
      rw [hsg, okBind] at h
      obtain ⟨kvs, rfl, hsv⟩ := pyGet_ok e "source" (.str "") source hsg
      cases htg : pyGet (.dict kvs) "technique" (.str "") with
      | error err =>
        rw [htg, errBind] at h
        exact Except.noConfusion h
      | ok technique =>
        rw [htg, okBind] at h
        obtain ⟨kvs2, heq, htv⟩ := pyGet_ok _ "technique" (.str "") technique htg
        injection heq with heq2
        subst heq2
        cases hcm : isCodemetaEntry source technique with
        | error err =>
          rw [hcm, errBind] at h
          exact Except.noConfusion h
        | ok isCm =>
          rw [hcm, okBind] at h
          obtain ⟨s, hss, hbval⟩ := isCodemetaEntry_ok source technique isCm hcm
          have hsrcv : entrySourceVal (.dict kvs) = source := hsv.symm
          have htecv : entryTechniqueVal (.dict kvs) = technique := htv.symm
          have hb : isCodemetaB (.dict kvs) = isCm := by
            have hx : isCodemetaB (.dict kvs) =
                (match entrySourceVal (.dict kvs) with
                 | .str s' => strContains (sLower s') "codemeta.json" ||
                     (pyEqStr (entryTechniqueVal (.dict kvs)) "code_parser" &&
                      strContains (sLower s') "codemeta")
                 | _ => false) := rfl
            rw [hx, htecv, hsrcv, hss]
            exact hbval.symm
          cases isCm with
          | true =>
            have hpred : (!isCodemetaB (PyVal.dict kvs) &&
                (match entryValue (PyVal.dict kvs) with
                 | some v => is_valid_identifier v
                 | Option.none => false)) = false := by
              rw [hb]
              rfl
            have hskip : w006OtherSpec (PyVal.dict kvs :: rest) = w006OtherSpec rest := by
              unfold w006OtherSpec
              rw [List.filter_cons, if_neg (by rw [hpred]; exact Bool.false_ne_true)]
            rw [hskip]
            exact ih others h
          | false =>
            cases hhv : hasResultValue (.dict kvs) with
            | error err =>
              rw [hhv, errBind] at h
              exact Except.noConfusion h
            | ok hv =>
              rw [hhv, okBind] at h
              cases hv with
              | false =>
                have hev := hasResultValue_false_entryValue kvs hhv
                have hpred : (!isCodemetaB (PyVal.dict kvs) &&
                    (match entryValue (PyVal.dict kvs) with
                     | some v => is_valid_identifier v
                     | Option.none => false)) = false := by
                  rw [hev, Bool.and_false]
                have hskip : w006OtherSpec (PyVal.dict kvs :: rest) = w006OtherSpec rest := by
                  unfold w006OtherSpec
                  rw [List.filter_cons, if_neg (by rw [hpred]; exact Bool.false_ne_true)]
                rw [hskip]
                exact ih others h
              | true =>
                cases hri : pyIndex (.dict kvs) "result" with
                | error err =>
                  rw [hri, errBind] at h
                  exact Except.noConfusion h
                | ok r =>
                  rw [hri, okBind] at h
                  cases hrv : pyIndex r "value" with
                  | error err =>
                    rw [hrv, errBind] at h
                    exact Except.noConfusion h
                  | ok v =>
                    rw [hrv, okBind] at h
                    have hev := entryValue_of_pyIndex (.dict kvs) r v hri hrv
                    cases hval : is_valid_identifier v with
                    | false =>
                      rw [hval] at h
                      have hpred : (!isCodemetaB (PyVal.dict kvs) &&
                          (match entryValue (PyVal.dict kvs) with
                           | some w => is_valid_identifier w
                           | Option.none => false)) = false := by
                        simp [hev, hb, hval]
                      have hskip : w006OtherSpec (PyVal.dict kvs :: rest) =
                          w006OtherSpec rest := by
                        unfold w006OtherSpec
                        rw [List.filter_cons, if_neg (by rw [hpred]; exact Bool.false_ne_true)]
                      rw [hskip]
                      exact ih others h
                    | true =>
                      rw [hval] at h
                      cases htl : w006OtherLoop rest with
                      | error err =>
                        rw [htl, errBind] at h
                        exact Except.noConfusion h
                      | ok tail =>
                        rw [htl, okBind] at h
                        have h' : Except.ok ((v, source) :: tail) =
                            Except.ok others := h
                        cases h'
                        have hpred : (!isCodemetaB (PyVal.dict kvs) &&
                            (match entryValue (PyVal.dict kvs) with
                             | some w => is_valid_identifier w
                             | Option.none => false)) = true := by
                          simp [hev, hb, hval]
                        have hcons : w006OtherSpec (PyVal.dict kvs :: rest) =
                            ((entryValue (PyVal.dict kvs)).getD .none,
                              entrySourceVal (PyVal.dict kvs)) :: w006OtherSpec rest := by
                          unfold w006OtherSpec
                          rw [List.filter_cons, if_pos hpred]
                          rfl
                        rw [hcons, hev, hsrcv, ih tail htl]
                        rfl

/-- C10: in every result the identifier-name warning rule returns,
`has_warning=True` implies the codemeta identifier is non-null and fails
`is_valid_identifier`, the fallback identifier is non-null and
`has_valid_identifier_elsewhere=True`; `has_valid_identifier_elsewhere`
is true exactly when `other_identifiers` is nonempty; and
`other_identifiers`/`other_identifier` are exactly the valid non-codemeta
identifiers in extraction order and the first of them. -/
theorem c10_w006_invariants (somef : Record) (fname : String) (res : Finding)
    (h : detect_identifier_name_warning somef fname = .ok res) :
    (findingGet res "has_warning" = .bool true →
      findingGet res "codemeta_identifier" ≠ .none ∧
      is_valid_identifier (findingGet res "codemeta_identifier") = false ∧
      findingGet res "other_identifier" ≠ .none ∧
      findingGet res "has_valid_identifier_elsewhere" = .bool true) ∧
    (findingGet res "has_valid_identifier_elsewhere" = .bool true ↔
      findingGet res "other_identifiers" ≠ .list []) ∧
    (∀ entries, attrEntries somef "identifier" = some entries →
      findingGet res "other_identifiers" =
        .list ((w006OtherSpec entries).map
          (fun p => .dict [("value", p.1), ("source", p.2)])) ∧
      findingGet res "other_identifier" =
        ((w006OtherSpec entries).head?.map Prod.fst).getD .none) := by
  unfold detect_identifier_name_warning at h
  rcases ha : attrEntries somef "identifier" with _ | entries
  · rw [ha] at h
    cases h
    refine ⟨?_, ⟨?_, ?_⟩, ?_⟩
    · intro hw
      exact absurd (show PyVal.bool false = PyVal.bool true from hw) (by simp)
    · intro hw
      exact absurd (show PyVal.bool false = PyVal.bool true from hw) (by simp)
    · intro hne
      exact absurd rfl hne
    · intro entries hent
      exact Option.noConfusion hent
  · rw [ha] at h
    dsimp only at h
    cases hcm : w006CodemetaLoop entries with
    | error err =>
      rw [hcm, errBind] at h
      exact Except.noConfusion h
    | ok cm =>
      rw [hcm, okBind] at h
      cases hot : w006OtherLoop entries with
      | error err =>
        rw [hot, errBind] at h
        exact Except.noConfusion h
      | ok others =>
        rw [hot, okBind] at h
        have hspec := w006OtherLoop_spec entries others hot
        by_cases hcnd : (pyTruthy ((cm.map Prod.fst).getD PyVal.none) &&
            !is_valid_identifier ((cm.map Prod.fst).getD PyVal.none) &&
            pyTruthy (((others.head?).map Prod.fst).getD PyVal.none)) = true
        · rw [if_pos hcnd] at h
          cases h
          obtain ⟨hAB, hC⟩ := Bool.and_eq_true_iff.mp hcnd
          obtain ⟨hA, hB⟩ := Bool.and_eq_true_iff.mp hAB
          refine ⟨?_, ?_, ?_⟩
          · intro _
            refine ⟨?_, ?_, ?_, ?_⟩
            · intro heq
              have heq' : (cm.map Prod.fst).getD PyVal.none = PyVal.none := heq
              rw [heq'] at hA
              exact absurd hA (by decide)
            · have hB' : is_valid_identifier ((cm.map Prod.fst).getD PyVal.none) = false := by
                simpa using hB
              exact hB'
            · intro heq
              have heq' : ((others.head?).map Prod.fst).getD PyVal.none = PyVal.none := heq
              rw [heq'] at hC
              exact absurd hC (by decide)
            · cases others with
              | nil => exact absurd (show pyTruthy PyVal.none = true from hC) (by decide)
              | cons p ps => rfl
          · cases others with
            | nil =>
              constructor
              · intro hw
                exact absurd (show PyVal.bool false = PyVal.bool true from hw) (by simp)
              · intro hne
                exact absurd rfl hne
            | cons p ps =>
              constructor
              · intro _ heq
                have heq' : PyVal.list ((p :: ps).map
                    (fun q => PyVal.dict [("value", q.1), ("source", q.2)])) =
                    PyVal.list [] := heq
                injection heq' with h3
                exact List.noConfusion h3
              · intro _
                rfl
          · intro entries' hent
            injection hent with hent2
            subst hent2
            constructor
            · show PyVal.list (others.map
                (fun p => PyVal.dict [("value", p.1), ("source", p.2)])) = _
              rw [hspec]
            · show ((others.head?).map Prod.fst).getD PyVal.none = _
              rw [hspec]
        · rw [if_neg hcnd] at h
          cases h
          refine ⟨?_, ?_, ?_⟩
          · intro hw
            exact absurd (show PyVal.bool false = PyVal.bool true from hw) (by simp)
          · cases others with
            | nil =>
              constructor
              · intro hw
                exact absurd (show PyVal.bool false = PyVal.bool true from hw) (by simp)
              · intro hne
                exact absurd rfl hne
            | cons p ps =>
              constructor
              · intro _ heq
                have heq' : PyVal.list ((p :: ps).map
                    (fun q => PyVal.dict [("value", q.1), ("source", q.2)])) =
                    PyVal.list [] := heq
                injection heq' with h3
                exact List.noConfusion h3
              · intro _
                rfl
          · intro entries' hent
            injection hent with hent2
            subst hent2
            constructor
            · show PyVal.list (others.map
                (fun p => PyVal.dict [("value", p.1), ("source", p.2)])) = _
              rw [hspec]
            · show ((others.head?).map Prod.fst).getD PyVal.none = _
              rw [hspec]

/-- C10 witness: the invariants evaluated on a record whose codemeta
identifier is a plain name while a DOI appears in the README. -/
theorem c10_w006_invariants_witness :
    is_valid_identifier (findingGet
      [("has_warning", PyVal.bool true), ("file_name", PyVal.str "t.json"),
       ("codemeta_identifier", PyVal.str "Project Name"),
       ("other_identifier", PyVal.str "10.1234/example"),
       ("codemeta_source", PyVal.str "repository/codemeta.json"),
       ("other_source", PyVal.str "README.md"),
       ("has_valid_identifier_elsewhere", PyVal.bool true),
       ("other_identifiers", PyVal.list
         [PyVal.dict [("value", PyVal.str "10.1234/example"),
                      ("source", PyVal.str "README.md")]])]
      "codemeta_identifier") = false := by
  have h := c10_w006_invariants
    [("identifier", PyVal.list
      [PyVal.dict [("source", PyVal.str "repository/codemeta.json"),
                   ("technique", PyVal.str "code_parser"),
                   ("result", PyVal.dict [("value", PyVal.str "Project Name")])],
       PyVal.dict [("source", PyVal.str "README.md"),
                   ("result", PyVal.dict [("value", PyVal.str "10.1234/example")])]])]
    "t.json" _ rfl
  exact (h.1 rfl).2.1

/-! ### Exception-freedom on well-typed records -/

lemma entryWT_parts (e : PyVal) (h : entryWT e = true) :
    ∃ kvs, e = .dict kvs ∧
      (∃ s, (dictLookup kvs "source").getD (.str "") = .str s) ∧
      (∃ t, (dictLookup kvs "technique").getD (.str "") = .str t) ∧
      (dictLookup kvs "result" = Option.none ∨
       ∃ rkvs, dictLookup kvs "result" = some (.dict rkvs) ∧
         (dictLookup rkvs "value" = Option.none ∨
          ∃ vs, dictLookup rkvs "value" = some (.str vs))) := by
  cases e with
  | dict kvs =>
    unfold entryWT at h
    obtain ⟨⟨hA, hB⟩, hC⟩ :
        ((match dictLookup kvs "source" with
          | some (.str _) => true
          | some _ => false
          | Option.none => true) = true ∧
         (match dictLookup kvs "technique" with
          | some (.str _) => true
          | some _ => false
          | Option.none => true) = true) ∧
        (match dictLookup kvs "result" with
         | some (.dict rkvs) =>
             (match dictLookup rkvs "value" with
              | some (.str _) => true
              | some _ => false
              | Option.none => true)
         | some _ => false
         | Option.none => true) = true := by
      simpa [Bool.and_eq_true] using h
    refine ⟨kvs, rfl, ?_, ?_, ?_⟩
    · cases hls : dictLookup kvs "source" with
      | none => exact ⟨"", rfl⟩
      | some v =>
        rw [hls] at hA
        cases v with
        | str s => exact ⟨s, rfl⟩
        | none => exact Bool.noConfusion hA
        | bool b => exact Bool.noConfusion hA
        | int n => exact Bool.noConfusion hA
        | list xs => exact Bool.noConfusion hA
        | dict d => exact Bool.noConfusion hA
    · cases hls : dictLookup kvs "technique" with
      | none => exact ⟨"", rfl⟩
      | some v =>
        rw [hls] at hB
        cases v with
        | str t => exact ⟨t, rfl⟩
        | none => exact Bool.noConfusion hB
        | bool b => exact Bool.noConfusion hB
        | int n => exact Bool.noConfusion hB
        | list xs => exact Bool.noConfusion hB
        | dict d => exact Bool.noConfusion hB
    · cases hls : dictLookup kvs "result" with
      | none => exact Or.inl rfl
      | some v =>
        rw [hls] at hC
        cases v with
        | dict rkvs =>
          refine Or.inr ⟨rkvs, rfl, ?_⟩
          have hC' : (match dictLookup rkvs "value" with
              | some (.str _) => true
              | some _ => false
              | Option.none => true) = true := hC
          cases hlv : dictLookup rkvs "value" with
          | none => exact Or.inl rfl
          | some w =>
            rw [hlv] at hC'
            cases w with
            | str vs => exact Or.inr ⟨vs, rfl⟩
            | none => exact Bool.noConfusion hC'
            | bool b => exact Bool.noConfusion hC'
            | int n => exact Bool.noConfusion hC'
            | list xs => exact Bool.noConfusion hC'
            | dict d => exact Bool.noConfusion hC'
        | none => exact Bool.noConfusion hC
        | bool b => exact Bool.noConfusion hC
        | int n => exact Bool.noConfusion hC
        | str s => exact Bool.noConfusion hC
        | list xs => exact Bool.noConfusion hC
  | none => exact Bool.noConfusion h
  | bool b => exact Bool.noConfusion h
  | int n => exact Bool.noConfusion h
  | str s => exact Bool.noConfusion h
  | list xs => exact Bool.noConfusion h

lemma hasResultValue_WT (kvs : PyDict)
    (hres : dictLookup kvs "result" = Option.none ∨
       ∃ rkvs, dictLookup kvs "result" = some (.dict rkvs) ∧
         (dictLookup rkvs "value" = Option.none ∨
          ∃ vs, dictLookup rkvs "value" = some (.str vs))) :
    hasResultValue (.dict kvs) = .ok false ∨
    ∃ rkvs vs, hasResultValue (.dict kvs) = .ok true ∧
      pyIndex (.dict kvs) "result" = .ok (.dict rkvs) ∧
      pyIndex (.dict rkvs) "value" = .ok (.str vs) := by
  have hdef : hasResultValue (.dict kvs) =
      (Except.ok (kvs.any (fun kv => kv.1 = "result")) >>= fun hasRes =>
        if hasRes = true then pyIndex (.dict kvs) "result" >>= fun r => pyIn "value" r
        else pure false) := rfl
  rcases hres with hnone | ⟨rkvs, hsome, hval⟩
  · cases hany : kvs.any (fun kv => kv.1 = "result") with
    | true =>
      obtain ⟨v, hv⟩ := dictLookup_some_of_anyKey_true kvs "result" hany
      rw [hnone] at hv
      exact Option.noConfusion hv
    | false =>
      left
      rw [hdef, okBind, hany]
      rfl
  · have hany := anyKey_true_of_dictLookup_some kvs "result" _ hsome
    have hidx : pyIndex (.dict kvs) "result" = .ok (.dict rkvs) := by
      rw [pyIndex, hsome]
    rcases hval with hvnone | ⟨vs, hvsome⟩
    · left
      rw [hdef, okBind, hany, if_pos rfl, hidx, okBind]
      cases hany2 : rkvs.any (fun kv => kv.1 = "value") with
      | true =>
        obtain ⟨w, hw⟩ := dictLookup_some_of_anyKey_true rkvs "value" hany2
        rw [hvnone] at hw
        exact Option.noConfusion hw
      | false =>
        show Except.ok (rkvs.any (fun kv => kv.1 = "value")) = Except.ok false
        rw [hany2]
    · right
      refine ⟨rkvs, vs, ?_, hidx, ?_⟩
      · rw [hdef, okBind, hany, if_pos rfl, hidx, okBind]
        have hany2 := anyKey_true_of_dictLookup_some rkvs "value" _ hvsome
        show Except.ok (rkvs.any (fun kv => kv.1 = "value")) = Except.ok true
        rw [hany2]
      · rw [pyIndex, hvsome]

lemma recordWT_entries (somef : Record) (hwt : recordWT somef = true)
    (k : String) (entries : List PyVal)
    (ha : attrEntries somef k = some entries) : entries.all entryWT = true := by
  unfold attrEntries at ha
  cases hl : dictLookup somef k with
  | none =>
    rw [hl] at ha
    exact Option.noConfusion ha
  | some v =>
    rw [hl] at ha
    cases v with
    | list xs =>
      injection ha with ha2
      subst ha2
      have hmem := dictLookup_mem somef k _ hl
      have := List.all_eq_true.mp hwt _ hmem
      exact this
    | none => exact Option.noConfusion ha
    | bool b => exact Option.noConfusion ha
    | int n => exact Option.noConfusion ha
    | str s => exact Option.noConfusion ha
    | dict d => exact Option.noConfusion ha

lemma p007CffLoop_ok :
    ∀ (entries : List PyVal), entries.all entryWT = true →
      ∃ b, p007CffLoop entries = .ok b := by
  intro entries
  induction entries with
  | nil => exact fun _ => ⟨false, rfl⟩
  | cons e rest ih =>
    intro hwt
    obtain ⟨he, hrest⟩ : entryWT e = true ∧ rest.all entryWT = true := by
      simpa using hwt
    obtain ⟨kvs, rfl, ⟨s, hs⟩, -, -⟩ := entryWT_parts e he
    have hg : pyGet (.dict kvs) "source" (.str "") = .ok (.str s) := by
      rw [pyGet, hs]
    simp only [p007CffLoop]
    rw [hg, okBind]
    rw [show pyIn "CITATION.cff" (PyVal.str s) =
        Except.ok (strContains s "CITATION.cff") from rfl, okBind]
    cases hc : strContains s "CITATION.cff" with
    | true => exact ⟨true, rfl⟩
    | false => exact ih hrest

lemma p007RefLoop_ok :
    ∀ (entries : List PyVal), entries.all entryWT = true →
      ∀ res, ∃ r, p007RefLoop entries res = .ok r := by
  intro entries
  induction entries with
  | nil => exact fun _ res => ⟨res, rfl⟩
  | cons e rest ih =>
    intro hwt res
    obtain ⟨he, hrest⟩ : entryWT e = true ∧ rest.all entryWT = true := by
      simpa using hwt
    obtain ⟨kvs, rfl, ⟨s, hs⟩, ⟨t, ht⟩, hresWT⟩ := entryWT_parts e he
    have hg : pyGet (.dict kvs) "source" (.str "") = .ok (.str s) := by
      rw [pyGet, hs]
    have hgt : pyGet (.dict kvs) "technique" (.str "") = .ok (.str t) := by
      rw [pyGet, ht]
    have hrv := hasResultValue_WT kvs hresWT
    simp only [p007RefLoop]
    rw [hg, okBind, hgt, okBind]
    have hpath2 : ∃ r, (do
        let cond2 ← pyIn "CITATION.cff" (PyVal.str s)
        if cond2 = true then do
          let hv ← hasResultValue (PyVal.dict kvs)
          p007RefLoop rest
            (if hv = true then dictSet res "citation_cff_has_reference" (.bool true)
             else res)
        else p007RefLoop rest res) = Except.ok r := by
      rw [show pyIn "CITATION.cff" (PyVal.str s) =
          Except.ok (strContains s "CITATION.cff") from rfl, okBind]
      cases hc2 : strContains s "CITATION.cff" with
      | false => exact ih hrest res
      | true =>
        rcases hrv with h0 | ⟨rkvs, vs, h1, -, -⟩
        · rw [h0, okBind]
          exact ih hrest _
        · rw [h1, okBind]
          exact ih hrest _
    cases hcp : pyEqStr (PyVal.str t) "code_parser" with
    | false => exact hpath2
    | true =>
      rw [show pyIn "codemeta.json" (PyVal.str s) =
          Except.ok (strContains s "codemeta.json") from rfl, okBind]
      cases hc1 : strContains s "codemeta.json" with
      | false => exact hpath2
      | true =>
        rcases hrv with h0 | ⟨rkvs, vs, h1, -, -⟩
        · rw [h0, okBind]
          exact ih hrest _
        · rw [h1, okBind]
          exact ih hrest _

lemma p007CatLoop_ok (somef : Record) (hwt : recordWT somef = true) :
    ∀ (cats : List String) (res : Finding), ∃ r, p007CatLoop somef cats res = .ok r := by
  intro cats
  induction cats with
  | nil => exact fun res => ⟨res, rfl⟩
  | cons cat rest ih =>
    intro res
    simp only [p007CatLoop]
    cases ha : attrEntries somef cat with
    | none =>
      by_cases hb : pyTruthy (findingGet res "citation_cff_exists") = true
      · exact ⟨res, show (if pyTruthy (findingGet res "citation_cff_exists") = true then
          Except.ok res else p007CatLoop somef rest res) = Except.ok res from by
            rw [if_pos hb]⟩
      · obtain ⟨r, hr⟩ := ih res
        exact ⟨r, show (if pyTruthy (findingGet res "citation_cff_exists") = true then
          Except.ok res else p007CatLoop somef rest res) = Except.ok r from by
            rw [if_neg hb]; exact hr⟩
    | some entries =>
      have hentwt := recordWT_entries somef hwt cat entries ha
      obtain ⟨found, hfound⟩ := p007CffLoop_ok entries hentwt
      dsimp only
      rw [hfound, okBind]
      by_cases hb : pyTruthy (findingGet
          (if found = true then dictSet res "citation_cff_exists" (.bool true) else res)
          "citation_cff_exists") = true
      · refine ⟨(if found = true then dictSet res "citation_cff_exists" (.bool true)
          else res), ?_⟩
        show (if pyTruthy (findingGet
            (if found = true then dictSet res "citation_cff_exists" (.bool true) else res)
            "citation_cff_exists") = true then
          Except.ok (if found = true then dictSet res "citation_cff_exists" (.bool true)
            else res)
          else p007CatLoop somef rest
            (if found = true then dictSet res "citation_cff_exists" (.bool true) else res)) =
          Except.ok (if found = true then dictSet res "citation_cff_exists" (.bool true)
            else res)
        rw [if_pos hb]
      · obtain ⟨r, hr⟩ := ih
          (if found = true then dictSet res "citation_cff_exists" (.bool true) else res)
        refine ⟨r, ?_⟩
        show (if pyTruthy (findingGet
            (if found = true then dictSet res "citation_cff_exists" (.bool true) else res)
            "citation_cff_exists") = true then
          Except.ok (if found = true then dictSet res "citation_cff_exists" (.bool true)
            else res)
          else p007CatLoop somef rest
            (if found = true then dictSet res "citation_cff_exists" (.bool true) else res)) =
          Except.ok r
        rw [if_neg hb]
        exact hr

lemma is_homepage_url_repoP_str (vs : String) :
    ∃ b, is_homepage_url_repoP (.str vs) = .ok b := by
  unfold is_homepage_url_repoP
  by_cases hq : pyTruthy (PyVal.str vs) = true
  · exact ⟨is_homepage_url_repo vs, by rw [if_pos hq]⟩
  · exact ⟨false, by rw [if_neg hq]⟩

lemma p009Loop_ok :
    ∀ (entries : List PyVal), entries.all entryWT = true →
      ∀ res, ∃ r, p009Loop entries res = .ok r := by
  intro entries
  induction entries with
  | nil => exact fun _ res => ⟨res, rfl⟩
  | cons e rest ih =>
    intro hwt res
    obtain ⟨he, hrest⟩ : entryWT e = true ∧ rest.all entryWT = true := by
      simpa using hwt
    obtain ⟨kvs, rfl, ⟨s, hs⟩, ⟨t, ht⟩, hresWT⟩ := entryWT_parts e he
    have hg : pyGet (.dict kvs) "source" (.str "") = .ok (.str s) := by
      rw [pyGet, hs]
    have hgt : pyGet (.dict kvs) "technique" (.str "") = .ok (.str t) := by
      rw [pyGet, ht]
    have hrv := hasResultValue_WT kvs hresWT
    simp only [p009Loop]
    rw [hgt, okBind, hg, okBind]
    have hpath : ∀ (b : Bool), ∃ r,
        (if b = true then (do
          let hv ← hasResultValue (PyVal.dict kvs)
          if hv = true then do
            let resDict ← pyIndex (PyVal.dict kvs) "result"
            let repo_url ← pyIndex resDict "value"
            let isHome ← is_homepage_url_repoP repo_url
            if isHome = true then
              Except.ok (dictSet (dictSet (dictSet (dictSet (dictSet res
                "has_pitfall" (.bool true)) "repository_url" repo_url) "source"
                (p009SourceField (PyVal.str s) (PyVal.str t))) "metadata_source_file"
                (extract_metadata_source_filenameP (PyVal.str s))) "is_homepage" (.bool true))
            else p009Loop rest res
          else p009Loop rest res)
        else p009Loop rest res) = Except.ok r := by
      intro b
      cases b with
      | false => exact ih hrest res
      | true =>
        rcases hrv with h0 | ⟨rkvs, vs, h1, hidx, hval⟩
        · rw [h0, okBind]
          exact ih hrest res
        · rw [h1, okBind, hidx, okBind, hval, okBind]
          obtain ⟨b2, hb2⟩ := is_homepage_url_repoP_str vs
          rw [hb2, okBind]
          cases hb2v : b2 with
          | true => exact ⟨_, rfl⟩
          | false => exact ih hrest res
    cases hcp : pyEqStr (PyVal.str t) "code_parser" with
    | true => exact hpath true
    | false =>
      cases hc2 : metadata_sources.any (fun m => pyEqStr (PyVal.str t) m) with
      | true => exact hpath true
      | false =>
        rw [show pyLower (PyVal.str s) = Except.ok (sLower s) from rfl, okBind]
        exact hpath (metadata_sources.any (fun m => strContains (sLower s) m))

lemma w006CodemetaLoop_ok :
    ∀ (entries : List PyVal), entries.all entryWT = true →
      ∃ r, w006CodemetaLoop entries = .ok r := by
  intro entries
  induction entries with
  | nil => exact fun _ => ⟨Option.none, rfl⟩
  | cons e rest ih =>
    intro hwt
    obtain ⟨he, hrest⟩ : entryWT e = true ∧ rest.all entryWT = true := by
      simpa using hwt
    obtain ⟨kvs, rfl, ⟨s, hs⟩, ⟨t, ht⟩, hresWT⟩ := entryWT_parts e he
    have hg : pyGet (.dict kvs) "source" (.str "") = .ok (.str s) := by
      rw [pyGet, hs]
    have hgt : pyGet (.dict kvs) "technique" (.str "") = .ok (.str t) := by
      rw [pyGet, ht]
    have hrv := hasResultValue_WT kvs hresWT
    simp only [w006CodemetaLoop]
    rw [hg, okBind, hgt, okBind, isCodemetaEntry_okAlways, okBind]
    cases hcm : (strContains (sLower s) "codemeta.json" ||
        (pyEqStr (PyVal.str t) "code_parser" && strContains (sLower s) "codemeta")) with
    | false => exact ih hrest
    | true =>
      rcases hrv with h0 | ⟨rkvs, vs, h1, hidx, hval⟩
      · rw [h0, okBind]
        exact ih hrest
      · rw [h1, okBind, hidx, okBind, hval, okBind]
        exact ⟨_, rfl⟩

lemma w006OtherLoop_ok :
    ∀ (entries : List PyVal), entries.all entryWT = true →
      ∃ r, w006OtherLoop entries = .ok r := by
  intro entries
  induction entries with
  | nil => exact fun _ => ⟨[], rfl⟩
  | cons e rest ih =>
    intro hwt
    obtain ⟨he, hrest⟩ : entryWT e = true ∧ rest.all entryWT = true := by
      simpa using hwt
    obtain ⟨kvs, rfl, ⟨s, hs⟩, ⟨t, ht⟩, hresWT⟩ := entryWT_parts e he
    have hg : pyGet (.dict kvs) "source" (.str "") = .ok (.str s) := by
      rw [pyGet, hs]
    have hgt : pyGet (.dict kvs) "technique" (.str "") = .ok (.str t) := by
      rw [pyGet, ht]
    have hrv := hasResultValue_WT kvs hresWT
    simp only [w006OtherLoop]
    rw [hg, okBind, hgt, okBind, isCodemetaEntry_okAlways, okBind]
    cases hcm : (strContains (sLower s) "codemeta.json" ||
        (pyEqStr (PyVal.str t) "code_parser" && strContains (sLower s) "codemeta")) with
    | true => exact ih hrest
    | false =>
      rcases hrv with h0 | ⟨rkvs, vs, h1, hidx, hval⟩
      · rw [h0, okBind]
        exact ih hrest
      · rw [h1, okBind, hidx, okBind, hval, okBind]
        cases hv : is_valid_identifier (PyVal.str vs) with
        | false => exact ih hrest
        | true =>
          obtain ⟨tail, htl⟩ := ih hrest
          rw [htl, okBind]
          exact ⟨_, rfl⟩

/-! ### C7 — frame and determinism of the rule bodies -/

lemma p007CatLoopFr_eq (somef : Record) :
    ∀ (cats : List String) (res : Finding),
      p007CatLoopFr somef cats res = (p007CatLoop somef cats res, somef) := by
  intro cats
  induction cats with
  | nil => intro res; rfl
  | cons cat rest ih =>
    intro res
    unfold p007CatLoopFr p007CatLoop readAttr
    dsimp only
    cases ha : attrEntries somef cat with
    | none =>
      by_cases hb : pyTruthy (findingGet res "citation_cff_exists") = true
      · simp [okBind, pureOk, hb]
      · simp only [Bool.not_eq_true] at hb
        simp [okBind, pureOk, hb, ih]
    | some entries =>
      dsimp only
      cases hc : p007CffLoop entries with
      | error e => rfl
      | ok found =>
        by_cases hb : pyTruthy (findingGet
            (if found = true then dictSet res "citation_cff_exists" (.bool true) else res)
            "citation_cff_exists") = true
        · simp [Except.map, okBind, pureOk, hb]
        · simp only [Bool.not_eq_true] at hb
          simp [Except.map, okBind, pureOk, hb, ih]

lemma p007Fr_eq (somef : Record) (fname : String) :
    p007Fr somef fname =
      (detect_citation_missing_reference_publication_pitfall somef fname, somef) := by
  unfold p007Fr detect_citation_missing_reference_publication_pitfall readAttr
  dsimp only
  cases ha : attrEntries somef "reference_publication" with
  | none =>
    dsimp only [pureOk, okBind]
    rw [p007CatLoopFr_eq]
    cases p007CatLoop somef citation_cff_sources _ with
    | error e => rfl
    | ok res2 => rfl
  | some entries =>
    dsimp only
    cases h1 : p007RefLoop entries _ with
    | error e => rfl
    | ok res1 =>
      dsimp only [okBind]
      rw [p007CatLoopFr_eq]
      cases p007CatLoop somef citation_cff_sources res1 with
      | error e => rfl
      | ok res2 => rfl

lemma p009Fr_eq (somef : Record) (fname : String) :
    p009Fr somef fname =
      (detect_coderepository_homepage_pitfall somef fname, somef) := by
  unfold p009Fr detect_coderepository_homepage_pitfall readAttr
  dsimp only
  cases attrEntries somef "code_repository" with
  | none => rfl
  | some entries => rfl

/-! ### Key-set preservation of the rule loops -/

lemma p007RefLoop_keys :
    ∀ (entries : List PyVal) (res res' : Finding),
      "codemeta_has_reference" ∈ res.map Prod.fst →
      "citation_cff_has_reference" ∈ res.map Prod.fst →
      p007RefLoop entries res = .ok res' →
      res'.map Prod.fst = res.map Prod.fst := by
  intro entries
  induction entries with
  | nil =>
    intro res res' h1 h2 h
    simp only [p007RefLoop] at h
    cases h
    rfl
  | cons e rest ih =>
    intro res res' h1 h2 h
    simp only [p007RefLoop] at h
    cases hs : pyGet e "source" (.str "") with
    | error err =>
      rw [hs, errBind] at h
      exact Except.noConfusion h
    | ok source =>
      rw [hs, okBind] at h
      cases ht : pyGet e "technique" (.str "") with
      | error err =>
        rw [ht, errBind] at h
        exact Except.noConfusion h
      | ok technique =>
        rw [ht, okBind] at h
        have hpath2 : ∀ hh : (do
            let cond2 ← pyIn "CITATION.cff" source
            if cond2 = true then do
              let hv ← hasResultValue e
              p007RefLoop rest
                (if hv = true then dictSet res "citation_cff_has_reference" (.bool true)
                 else res)
            else p007RefLoop rest res) = Except.ok res',
            res'.map Prod.fst = res.map Prod.fst := by
          intro hh
          cases hc2 : pyIn "CITATION.cff" source with
          | error err =>
            rw [hc2, errBind] at hh
            exact Except.noConfusion hh
          | ok cond2 =>
            rw [hc2, okBind] at hh
            cases cond2 with
            | false => exact ih res res' h1 h2 hh
            | true =>
              cases hhv : hasResultValue e with
              | error err =>
                rw [hhv, errBind] at hh
                exact Except.noConfusion hh
              | ok hv =>
                rw [hhv, okBind] at hh
                cases hv with
                | false => exact ih res res' h1 h2 hh
                | true =>
                  have hk := keys_dictSet_of_mem res "citation_cff_has_reference"
                    (.bool true) h2
                  have hres := ih (dictSet res "citation_cff_has_reference" (.bool true))
                    res' (by rw [hk]; exact h1) (by rw [hk]; exact h2) hh
                  rw [hres, hk]
        cases hcp : pyEqStr technique "code_parser" with
        | false =>
          rw [hcp] at h
          dsimp only [pureOk, okBind] at h
          exact hpath2 h
        | true =>
          rw [hcp] at h
          cases hin : pyIn "codemeta.json" source with
          | error err =>
            rw [hin, errBind] at h
            exact Except.noConfusion h
          | ok cond1 =>
            rw [hin, okBind] at h
            cases cond1 with
            | false => exact hpath2 h
            | true =>
              cases hhv : hasResultValue e with
              | error err =>
                rw [hhv, errBind] at h
                exact Except.noConfusion h
              | ok hv =>
                rw [hhv, okBind] at h
                cases hv with
                | false => exact ih res res' h1 h2 h
                | true =>
                  have hk := keys_dictSet_of_mem res "codemeta_has_reference" (.bool true) h1
                  have hres := ih (dictSet res "codemeta_has_reference" (.bool true))
                    res' (by rw [hk]; exact h1) (by rw [hk]; exact h2) h
                  rw [hres, hk]

lemma p007CatLoop_frame (somef : Record) :
    ∀ (cats : List String) (res res' : Finding),
      "citation_cff_exists" ∈ res.map Prod.fst →
      p007CatLoop somef cats res = .ok res' →
      res'.map Prod.fst = res.map Prod.fst ∧
        ∀ k, k ≠ "citation_cff_exists" → dictLookup res' k = dictLookup res k := by
  intro cats
  induction cats with
  | nil =>
    intro res res' h1 h
    simp only [p007CatLoop] at h
    cases h
    exact ⟨rfl, fun _ _ => rfl⟩
  | cons cat rest ih =>
    intro res res' h1 h
    simp only [p007CatLoop] at h
    cases ha : attrEntries somef cat with
    | none =>
      rw [ha] at h
      dsimp only [pureOk, okBind] at h
      by_cases hb : pyTruthy (findingGet res "citation_cff_exists") = true
      · rw [if_pos hb] at h
        cases h
        exact ⟨rfl, fun _ _ => rfl⟩
      · rw [if_neg hb] at h
        exact ih res res' h1 h
    | some entries =>
      rw [ha] at h
      dsimp only at h
      cases hc : p007CffLoop entries with
      | error err =>
        rw [hc, errBind] at h
        exact Except.noConfusion h
      | ok found =>
        rw [hc, okBind] at h
        dsimp only [pureOk, okBind] at h
        cases found with
        | false =>
          have h' : (if pyTruthy (findingGet res "citation_cff_exists") = true then
              Except.ok res else p007CatLoop somef rest res) = Except.ok res' := h
          by_cases hb : pyTruthy (findingGet res "citation_cff_exists") = true
          · rw [if_pos hb] at h'
            cases h'
            exact ⟨rfl, fun _ _ => rfl⟩
          · rw [if_neg hb] at h'
            exact ih res res' h1 h'
        | true =>
          have hk := keys_dictSet_of_mem res "citation_cff_exists" (.bool true) h1
          have hlk : ∀ k, k ≠ "citation_cff_exists" →
              dictLookup (dictSet res "citation_cff_exists" (.bool true)) k =
                dictLookup res k := by
            intro k hkne
            exact dictLookup_dictSet_ne res k "citation_cff_exists" (.bool true)
              (fun hh => hkne hh.symm)
          have h' : (if pyTruthy (findingGet
              (dictSet res "citation_cff_exists" (.bool true)) "citation_cff_exists") = true
              then Except.ok (dictSet res "citation_cff_exists" (.bool true))
              else p007CatLoop somef rest (dictSet res "citation_cff_exists" (.bool true))) =
              Except.ok res' := h
          by_cases hb : pyTruthy (findingGet
              (dictSet res "citation_cff_exists" (.bool true)) "citation_cff_exists") = true
          · rw [if_pos hb] at h'
            cases h'
            exact ⟨hk, hlk⟩
          · rw [if_neg hb] at h'
            obtain ⟨ha1, ha2⟩ := ih _ res' (by rw [hk]; exact h1) h'
            refine ⟨by rw [ha1, hk], ?_⟩
            intro k hkne
            rw [ha2 k hkne, hlk k hkne]

lemma p009Loop_keys :
    ∀ (entries : List PyVal) (res res' : Finding),
      "has_pitfall" ∈ res.map Prod.fst →
      "repository_url" ∈ res.map Prod.fst →
      "source" ∈ res.map Prod.fst →
      "metadata_source_file" ∈ res.map Prod.fst →
      "is_homepage" ∈ res.map Prod.fst →
      p009Loop entries res = .ok res' →
      res'.map Prod.fst = res.map Prod.fst := by
  intro entries
  induction entries with
  | nil =>
    intro res res' _ _ _ _ _ h
    simp only [p009Loop] at h
    cases h
    rfl
  | cons e rest ih =>
    intro res res' m1 m2 m3 m4 m5 h
    simp only [p009Loop] at h
    cases ht : pyGet e "technique" (.str "") with
    | error err =>
      rw [ht, errBind] at h
      exact Except.noConfusion h
    | ok technique =>
      rw [ht, okBind] at h
      cases hs : pyGet e "source" (.str "") with
      | error err =>
        rw [hs, errBind] at h
        exact Except.noConfusion h
      | ok source =>
        rw [hs, okBind] at h
        have hpath : ∀ (b : Bool),
            (if b = true then (do
              let hv ← hasResultValue e
              if hv = true then do
                let resDict ← pyIndex e "result"
                let repo_url ← pyIndex resDict "value"
                let isHome ← is_homepage_url_repoP repo_url
                if isHome = true then
                  Except.ok (dictSet (dictSet (dictSet (dictSet (dictSet res
                    "has_pitfall" (.bool true)) "repository_url" repo_url) "source"
                    (p009SourceField source technique)) "metadata_source_file"
                    (extract_metadata_source_filenameP source)) "is_homepage" (.bool true))
                else p009Loop rest res
              else p009Loop rest res)
            else p009Loop rest res) = Except.ok res' →
            res'.map Prod.fst = res.map Prod.fst := by
          intro b hh
          cases b with
          | false => exact ih res res' m1 m2 m3 m4 m5 hh
          | true =>
            cases hhv : hasResultValue e with
            | error err =>
              rw [hhv, errBind] at hh
              exact Except.noConfusion hh
            | ok hv =>
              rw [hhv, okBind] at hh
              cases hv with
              | false => exact ih res res' m1 m2 m3 m4 m5 hh
              | true =>
                cases hri : pyIndex e "result" with
                | error err =>
                  rw [hri, errBind] at hh
                  exact Except.noConfusion hh
                | ok resDict =>
                  rw [hri, okBind] at hh
                  cases hrv : pyIndex resDict "value" with
                  | error err =>
                    rw [hrv, errBind] at hh
                    exact Except.noConfusion hh
                  | ok repo_url =>
                    rw [hrv, okBind] at hh
                    cases hih : is_homepage_url_repoP repo_url with
                    | error err =>
                      rw [hih, errBind] at hh
                      exact Except.noConfusion hh
                    | ok isHome =>
                      rw [hih, okBind] at hh
                      cases isHome with
                      | false => exact ih res res' m1 m2 m3 m4 m5 hh
                      | true =>
                        have hh' : Except.ok (dictSet (dictSet (dictSet (dictSet (dictSet res
                            "has_pitfall" (.bool true)) "repository_url" repo_url) "source"
                            (p009SourceField source technique)) "metadata_source_file"
                            (extract_metadata_source_filenameP source)) "is_homepage"
                            (.bool true)) = Except.ok res' := hh
                        cases hh'
                        have k1 := keys_dictSet_of_mem res "has_pitfall" (.bool true) m1
                        have k2 := keys_dictSet_of_mem
                          (dictSet res "has_pitfall" (.bool true))
                          "repository_url" repo_url (by rw [k1]; exact m2)
                        have k3 := keys_dictSet_of_mem
                          (dictSet (dictSet res "has_pitfall" (.bool true))
                            "repository_url" repo_url)
                          "source" (p009SourceField source technique)
                          (by rw [k2, k1]; exact m3)
                        have k4 := keys_dictSet_of_mem
                          (dictSet (dictSet (dictSet res "has_pitfall" (.bool true))
                            "repository_url" repo_url) "source"
                            (p009SourceField source technique))
                          "metadata_source_file" (extract_metadata_source_filenameP source)
                          (by rw [k3, k2, k1]; exact m4)
                        have k5 := keys_dictSet_of_mem
                          (dictSet (dictSet (dictSet (dictSet res "has_pitfall" (.bool true))
                            "repository_url" repo_url) "source"
                            (p009SourceField source technique)) "metadata_source_file"
                            (extract_metadata_source_filenameP source))
                          "is_homepage" (.bool true)
                          (by rw [k4, k3, k2, k1]; exact m5)
                        rw [k5, k4, k3, k2, k1]
        cases hc1 : pyEqStr technique "code_parser" with
        | true =>
          rw [hc1] at h
          exact hpath true h
        | false =>
          rw [hc1] at h
          cases hc2 : metadata_sources.any (fun m => pyEqStr technique m) with
          | true =>
            rw [hc2] at h
            exact hpath true h
          | false =>
            rw [hc2] at h
            cases hsl : pyLower source with
            | error err =>
              rw [hsl, errBind] at h
              exact Except.noConfusion h
            | ok sl =>
              rw [hsl, okBind] at h
              exact hpath (metadata_sources.any (fun m => strContains sl m)) h

lemma p007Tail (somef : Record) (res1 res : Finding)
    (hmem : "citation_cff_exists" ∈ res1.map Prod.fst)
    (hp : "has_pitfall" ∈ res1.map Prod.fst)
    (h : (p007CatLoop somef citation_cff_sources res1 >>= fun res2 =>
          pure (if pyTruthy (findingGet res2 "codemeta_has_reference") &&
                   pyTruthy (findingGet res2 "citation_cff_exists") &&
                   !pyTruthy (findingGet res2 "citation_cff_has_reference")
                then dictSet res2 "has_pitfall" (.bool true) else res2)) = Except.ok res) :
    res.map Prod.fst = res1.map Prod.fst := by
  cases h2 : p007CatLoop somef citation_cff_sources res1 with
  | error err =>
    rw [h2, errBind] at h
    exact Except.noConfusion h
  | ok res2 =>
    rw [h2, okBind] at h
    have hk2 := (p007CatLoop_frame somef citation_cff_sources res1 res2 hmem h2).1
    have h' : Except.ok (if pyTruthy (findingGet res2 "codemeta_has_reference") &&
        pyTruthy (findingGet res2 "citation_cff_exists") &&
        !pyTruthy (findingGet res2 "citation_cff_has_reference")
        then dictSet res2 "has_pitfall" (.bool true) else res2) = Except.ok res := h
    cases h'
    by_cases hcnd : (pyTruthy (findingGet res2 "codemeta_has_reference") &&
        pyTruthy (findingGet res2 "citation_cff_exists") &&
        !pyTruthy (findingGet res2 "citation_cff_has_reference")) = true
    · rw [if_pos hcnd]
      have := keys_dictSet_of_mem res2 "has_pitfall" (.bool true) (by rw [hk2]; exact hp)
      rw [this, hk2]
    · rw [if_neg hcnd]
      exact hk2

/-- C3: on every return path each rule produces a Finding carrying
exactly its full documented field set, in order, whether or not an issue
was found. -/
theorem c3_finding_field_sets (somef : Record) (fname : String) :
    (∀ res, detect_citation_missing_reference_publication_pitfall somef fname =
        .ok res →
      res.map Prod.fst =
        ["has_pitfall", "file_name", "codemeta_has_reference",
         "citation_cff_has_reference", "citation_cff_exists"]) ∧
    (∀ res, detect_coderepository_homepage_pitfall somef fname = .ok res →
      res.map Prod.fst =
        ["has_pitfall", "file_name", "repository_url", "source",
         "metadata_source_file", "is_homepage"]) ∧
    (∀ res, detect_identifier_name_warning somef fname = .ok res →
      res.map Prod.fst =
        ["has_warning", "file_name", "codemeta_identifier", "other_identifier",
         "codemeta_source", "other_source", "has_valid_identifier_elsewhere",
         "other_identifiers"]) := by
  refine ⟨?_, ?_, ?_⟩
  · intro res hres
    unfold detect_citation_missing_reference_publication_pitfall at hres
    rcases ha : attrEntries somef "reference_publication" with _ | entries
    · rw [ha] at hres
      dsimp only at hres
      have ht := p007Tail somef _ res (by simp) (by simp) hres
      rw [ht]
      rfl
    · rw [ha] at hres
      dsimp only at hres
      cases h1 : p007RefLoop entries
          [("has_pitfall", .bool false), ("file_name", .str fname),
           ("codemeta_has_reference", .bool false),
           ("citation_cff_has_reference", .bool false),
           ("citation_cff_exists", .bool false)] with
      | error err =>
        rw [h1, errBind] at hres
        exact Except.noConfusion hres
      | ok res1 =>
        rw [h1, okBind] at hres
        have hk1 := p007RefLoop_keys entries _ res1 (by simp) (by simp) h1
        have ht := p007Tail somef res1 res
          (by rw [hk1]; simp) (by rw [hk1]; simp) hres
        rw [ht, hk1]
        rfl
  · intro res hres
    unfold detect_coderepository_homepage_pitfall at hres
    rcases ha : attrEntries somef "code_repository" with _ | entries
    · rw [ha] at hres
      cases hres
      rfl
    · rw [ha] at hres
      dsimp only at hres
      have hk := p009Loop_keys entries _ res (by simp) (by simp) (by simp)
        (by simp) (by simp) hres
      rw [hk]
      rfl
  · intro res hres
    unfold detect_identifier_name_warning at hres
    rcases ha : attrEntries somef "identifier" with _ | entries
    · rw [ha] at hres
      cases hres
      rfl
    · rw [ha] at hres
      dsimp only at hres
      cases hcm : w006CodemetaLoop entries with
      | error err =>
        rw [hcm, errBind] at hres
        exact Except.noConfusion hres
      | ok cm =>
        rw [hcm, okBind] at hres
        cases hot : w006OtherLoop entries with
        | error err =>
          rw [hot, errBind] at hres
          exact Except.noConfusion hres
        | ok others =>
          rw [hot, okBind] at hres
          split at hres
          · cases hres
            rfl
          · cases hres
            rfl

/-- C3 witness: the field set of the p007 Finding on the empty record,
where the rule takes its fail-open path. -/
theorem c3_finding_field_sets_witness :
    ([("has_pitfall", PyVal.bool false), ("file_name", PyVal.str "t.json"),
      ("codemeta_has_reference", PyVal.bool false),
      ("citation_cff_has_reference", PyVal.bool false),
      ("citation_cff_exists", PyVal.bool false)] : Finding).map Prod.fst =
      ["has_pitfall", "file_name", "codemeta_has_reference",
       "citation_cff_has_reference", "citation_cff_exists"] :=
  (c3_finding_field_sets [] "t.json").1 _ rfl

/-- C7: rule evaluation neither mutates its input record nor behaves
non-deterministically — the state-instrumented bodies of p007 and p009
return the record unchanged (no write is ever issued against it) while
computing the same Finding as the plain bodies, and two calls on equal
inputs return equal Findings. -/
theorem c7_rules_pure_frame (somef : Record) (fname : String) :
    (p007Fr somef fname).2 = somef ∧
    (p007Fr somef fname).1 =
      detect_citation_missing_reference_publication_pitfall somef fname ∧
    (p009Fr somef fname).2 = somef ∧
    (p009Fr somef fname).1 = detect_coderepository_homepage_pitfall somef fname ∧
    (∀ somef' fname', somef' = somef → fname' = fname →
      detect_citation_missing_reference_publication_pitfall somef' fname' =
        detect_citation_missing_reference_publication_pitfall somef fname ∧
      detect_coderepository_homepage_pitfall somef' fname' =
        detect_coderepository_homepage_pitfall somef fname) := by
  refine ⟨?_, ?_, ?_, ?_, ?_⟩
  · rw [p007Fr_eq]
  · rw [p007Fr_eq]
  · rw [p009Fr_eq]
  · rw [p009Fr_eq]
  · intro somef' fname' h1 h2
    subst h1
    subst h2
    exact ⟨rfl, rfl⟩

/-- C7 witness: frame and determinism evaluated on a concrete record. -/
theorem c7_rules_pure_frame_witness :
    (p007Fr [("version", PyVal.list [])] "repo.json").2 = [("version", PyVal.list [])] ∧
    detect_coderepository_homepage_pitfall [("version", PyVal.list [])] "repo.json" =
      detect_coderepository_homepage_pitfall [("version", PyVal.list [])] "repo.json" :=
  ⟨(c7_rules_pure_frame [("version", PyVal.list [])] "repo.json").1,
   ((c7_rules_pure_frame [("version", PyVal.list [])] "repo.json").2.2.2.2
      [("version", PyVal.list [])] "repo.json" rfl rfl).2⟩



/-- C9: the p009 URL classifiers are mutually exclusive — a URL classified
as a homepage is never classified as a repository — and any URL whose
lowercase form contains `github.io` is never classified as a repository
URL, even when it also contains a repository indicator. -/
theorem c9_url_classifiers_exclusive (url : String) :
    (is_homepage_url_repo url = true → is_repository_url url = false) ∧
    (strContains (sLower url) "github.io" = true → is_repository_url url = false) := by
  constructor
  · intro h
    unfold is_homepage_url_repo at h
    by_cases hu : url = ""
    · simp [hu] at h
    · rw [if_neg hu] at h
      by_cases hr : is_repository_url url = true
      · simp [hr] at h
      · simpa using hr
  · intro h
    unfold is_repository_url
    by_cases hu : url = ""
    · simp [hu]
    · simp [hu, h]

/-- C9 witness: `https://user.github.io/github.com/x` contains the
repository indicator `github.com/` yet is classified as a homepage and
not as a repository. -/
theorem c9_url_classifiers_exclusive_witness :
    is_homepage_url_repo "https://user.github.io/github.com/x" = true ∧
    strContains (sLower "https://user.github.io/github.com/x") "github.com/" = true ∧
    is_repository_url "https://user.github.io/github.com/x" = false := by
  refine ⟨by decide, by decide, ?_⟩
  exact (c9_url_classifiers_exclusive "https://user.github.io/github.com/x").1 (by decide)

/-- C2 counterexample: status code 300 lies in the 3xx range, yet
`check_ci_url_status` classifies it as inaccessible (the repository's own
test suite fixes `(300, False)`), refuting "every HTTP status code in the
2xx and 3xx ranges is classified is_accessible=True" for the CI probe. -/
theorem c2_ci_status_300_inaccessible :
    check_ci_url_status "https://example.com" (NetResult.status 300) =
      ⟨false, some 300, Option.none⟩ ∧
    (check_ci_url_status "https://example.com" (NetResult.status 300)).is_accessible ≠ true := by
  decide

/-- C2 (amended): `check_url_status` (p008) classifies every 2xx/3xx
response as accessible; `check_ci_url_status` (p015) classifies 2xx and
the redirect codes 301/302 as accessible but 300 as inaccessible; both
classify every 4xx/5xx response as inaccessible with the status code
recorded, turn any network-level failure into `is_accessible=False,
status_code=None` with the error description, and map a malformed URL
such as `"not a url"` to `is_accessible=False, error="Invalid URL
format"` independently of the network (no network I/O) and without
raising. -/
theorem c2_url_probe_classification (url msg : String) (c : Nat) (net : NetResult) :
    (is_valid_url_format_p008 url = true →
      (200 ≤ c → c ≤ 399 →
        check_url_status url (.status c) = ⟨true, some c, Option.none⟩) ∧
      (400 ≤ c → c ≤ 599 →
        check_url_status url (.status c) = ⟨false, some c, Option.none⟩) ∧
      check_url_status url (.failure msg) = ⟨false, Option.none, some msg⟩) ∧
    (is_valid_url_format_p015 url = true →
      (200 ≤ c → c ≤ 299 →
        check_ci_url_status url (.status c) = ⟨true, some c, Option.none⟩) ∧
      (check_ci_url_status url (.status 301) = ⟨true, some 301, Option.none⟩ ∧
       check_ci_url_status url (.status 302) = ⟨true, some 302, Option.none⟩ ∧
       check_ci_url_status url (.status 300) = ⟨false, some 300, Option.none⟩) ∧
      (400 ≤ c → c ≤ 599 →
        check_ci_url_status url (.status c) = ⟨false, some c, Option.none⟩) ∧
      check_ci_url_status url (.failure msg) = ⟨false, Option.none, some msg⟩) ∧
    (check_url_status "not a url" net = ⟨false, Option.none, some "Invalid URL format"⟩ ∧
     check_ci_url_status "not a url" net = ⟨false, Option.none, some "Invalid URL format"⟩) := by
  refine ⟨?_, ?_, ?_, ?_⟩
  · intro hv
    refine ⟨?_, ?_, ?_⟩
    · intro h1 h2
      have hc : 200 ≤ c ∧ c < 400 := ⟨h1, by omega⟩
      simp [check_url_status, hv, hc]
    · intro h1 h2
      have hc : ¬(200 ≤ c ∧ c < 400) := by omega
      simp [check_url_status, hv, hc]
    · simp [check_url_status, hv]
  · intro hv
    refine ⟨?_, ⟨?_, ?_, ?_⟩, ?_, ?_⟩
    · intro h1 h2
      have hc : (200 ≤ c ∧ c < 300) ∨ c = 301 ∨ c = 302 := by omega
      simp [check_ci_url_status, hv, hc]
    · simp [check_ci_url_status, hv]
    · simp [check_ci_url_status, hv]
    · simp [check_ci_url_status, hv]
    · intro h1 h2
      have hc : ¬((200 ≤ c ∧ c < 300) ∨ c = 301 ∨ c = 302) := by omega
      simp [check_ci_url_status, hv, hc]
    · simp [check_ci_url_status, hv]
  · unfold check_url_status
    rw [if_neg (by decide)]
  · unfold check_ci_url_status
    rw [if_neg (by decide)]

/-- C2 witness: the amended classification evaluated at
`https://example.com`, status 204, a timeout failure, and a malformed
URL. -/
theorem c2_url_probe_classification_witness :
    check_url_status "https://example.com" (.status 204) = ⟨true, some 204, Option.none⟩ ∧
    check_ci_url_status "https://example.com" (.status 404) = ⟨false, some 404, Option.none⟩ ∧
    check_url_status "not a url" (.failure "Timeout") =
      ⟨false, Option.none, some "Invalid URL format"⟩ := by
  have h := c2_url_probe_classification "https://example.com" "Timeout" 204
      (NetResult.failure "Timeout")
  have h404 := c2_url_probe_classification "https://example.com" "Timeout" 404
      (NetResult.failure "Timeout")
  refine ⟨?_, ?_, ?_⟩
  · exact ((h.1 (by decide)).1 (by decide) (by decide))
  · exact ((h404.2.1 (by decide)).2.2.1 (by decide) (by decide))
  · exact h.2.2.1

/-- The head of a `dropWhile` residue fails the predicate. -/
theorem listDropWhile_head_false {α : Type} (p : α → Bool) :
    ∀ (l : List α) {c : α} {t : List α}, l.dropWhile p = c :: t → p c = false := by
  intro l
  induction l with
  | nil => intro c t h; exact absurd h (by simp)
  | cons a l ih =>
      intro c t h
      rw [List.dropWhile_cons] at h
      by_cases hp : p a = true
      · rw [if_pos hp] at h
        exact ih h
      · rw [if_neg hp] at h
        cases h
        simpa using hp

/-- `dropWhile` is idempotent. -/
theorem listDropWhile_idem {α : Type} (p : α → Bool) (l : List α) :
    (l.dropWhile p).dropWhile p = l.dropWhile p := by
  induction l with
  | nil => rfl
  | cons a l ih =>
      rw [List.dropWhile_cons]
      by_cases hp : p a = true
      · rw [if_pos hp]; exact ih
      · rw [if_neg hp, List.dropWhile_cons, if_neg hp]

/-- `dropWhile` returns a suffix of its input. -/
theorem listDropWhile_suffix {α : Type} (p : α → Bool) (l : List α) :
    ∃ pre, l = pre ++ l.dropWhile p := by
  induction l with
  | nil => exact ⟨[], rfl⟩
  | cons a l ih =>
      rw [List.dropWhile_cons]
      by_cases hp : p a = true
      · obtain ⟨pre, hpre⟩ := ih
        refine ⟨a :: pre, ?_⟩
        rw [if_pos hp, List.cons_append, ← hpre]
      · exact ⟨[], by rw [if_neg hp, List.nil_append]⟩

/-- Stripping trailing whitespace is idempotent. -/
theorem trimTrailing_idem (l : List Char) : trimTrailing (trimTrailing l) = trimTrailing l := by
  unfold trimTrailing
  rw [List.reverse_reverse, listDropWhile_idem]

/-- The head of `normalize_version`'s core result is not a stripped
character: the result is a fixed point of the leading strip. -/
theorem normCore_head_false {s : String} {c : Char} {t : List Char}
    (hr : trimTrailing (s.data.dropWhile isVersionStripC) = c :: t) :
    isVersionStripC c = false := by
  obtain ⟨pre, hpre⟩ := listDropWhile_suffix isSpaceC (s.data.dropWhile isVersionStripC).reverse
  have hrev : (s.data.dropWhile isVersionStripC).reverse.dropWhile isSpaceC = (c :: t).reverse := by
    rw [← hr]
    unfold trimTrailing
    rw [List.reverse_reverse]
  rw [hrev] at hpre
  have hd : s.data.dropWhile isVersionStripC = c :: (t ++ pre.reverse) := by
    have := congrArg List.reverse hpre
    rw [List.reverse_reverse, List.reverse_append, List.reverse_reverse] at this
    simpa using this
  exact listDropWhile_head_false isVersionStripC s.data hd

/-- C4: the modelled `normalize_version` is idempotent on every input —
including `None`, the empty string and whitespace-only strings — and it
strips surrounding whitespace and a leading `v`/`V` case-insensitively:
`"V1.2.3"`, `"v1.2.3"` and `"  v1.2.3  "` all normalize to `"1.2.3"`,
while `None`, `""` and `"   "` normalize to `None`. -/
theorem c4_normalize_version_idempotent :
    (∀ x : Option String,
        normalize_version (normalize_version x) = normalize_version x) ∧
    normalize_version (some "V1.2.3") = some "1.2.3" ∧
    normalize_version (some "v1.2.3") = some "1.2.3" ∧
    normalize_version (some "  v1.2.3  ") = some "1.2.3" ∧
    normalize_version (some "") = Option.none ∧
    normalize_version (some "   ") = Option.none ∧
    normalize_version Option.none = Option.none := by
  refine ⟨?_, by decide, by decide, by decide, by decide, by decide, rfl⟩
  intro x
  match x with
  | Option.none => rfl
  | some s =>
      cases hr : trimTrailing (s.data.dropWhile isVersionStripC) with
      | nil =>
          simp only [normalize_version, hr]
      | cons c t =>
          have hA : isVersionStripC c = false := normCore_head_false hr
          have hcons : (c :: t).dropWhile isVersionStripC = c :: t := by
            rw [List.dropWhile_cons, if_neg]
            simp [hA]
          have hB : trimTrailing (c :: t) = c :: t := by
            rw [← hr]
            exact trimTrailing_idem _
          simp only [normalize_version, hr]
          show (match trimTrailing ((c :: t).dropWhile isVersionStripC) with
            | [] => Option.none
            | l => some (String.mk l)) = some (String.mk (c :: t))
          rw [hcons, hB]

/-- C4 witness: idempotence evaluated at the concrete input `" V2.0.0 "`,
which normalizes to `"2.0.0"`. -/
theorem c4_normalize_version_idempotent_witness :
    normalize_version (normalize_version (some " V2.0.0 ")) =
      normalize_version (some " V2.0.0 ") :=
  c4_normalize_version_idempotent.1 (some " V2.0.0 ")

/-- C8: for every check id, the batch aggregate percentage equals
`count_triggered / total_repos * 100` rounded (round-half-up, not
truncated) to two decimal places; with 3 repositories of which exactly 1
triggers the check the percentage is 33.33, and with 2 of 3 it is 66.67
(truncation would give 66.66). -/
theorem c8_aggregate_percentage_rounded
    (reports : List (List (String × Bool))) (check : String) :
    (reports ≠ [] →
      aggregate_percentage reports check =
        (round ((count_triggered reports check : ℚ) / (reports.length : ℚ) * 100 * 100) : ℤ)
          / 100) ∧
    aggregate_percentage [[("c", true)], [("c", false)], [("c", false)]] "c" = 3333 / 100 ∧
    aggregate_percentage [[("c", true)], [("c", true)], [("c", false)]] "c" = 6667 / 100 := by
  refine ⟨?_, ?_, ?_⟩
  · intro h
    have hl : reports.length ≠ 0 := by simpa using h
    unfold aggregate_percentage roundTo2
    rw [if_neg hl]
  · norm_num [aggregate_percentage, count_triggered, reportLookup, roundTo2, round_eq]
  · norm_num [aggregate_percentage, count_triggered, reportLookup, roundTo2, round_eq]

/-- C8 witness: the rounding formula evaluated on the 1-of-3 batch. -/
theorem c8_aggregate_percentage_rounded_witness :
    aggregate_percentage [[("c", true)], [("c", false)], [("c", false)]] "c" =
      (round ((count_triggered [[("c", true)], [("c", false)], [("c", false)]] "c" : ℚ)
        / (([[("c", true)], [("c", false)], [("c", false)]] : List (List (String × Bool))).length : ℚ)
        * 100 * 100) : ℤ) / 100 :=
  (c8_aggregate_percentage_rounded [[("c", true)], [("c", false)], [("c", false)]] "c").1
    (by decide)

/-- The characterization of `has_pitfall` for the version-mismatch rule. -/
lemma c5core (somef : Record) (fname : String) :
    findingGet (detect_version_mismatch somef fname) "has_pitfall" = .bool true ↔
      ∃ src mv rv,
        extract_version_from_metadata somef = some (src, mv) ∧
        extract_latest_release_version somef = some rv ∧
        normalizeVersionStr mv ≠ normalizeVersionStr rv ∧
        normalizeVersionStr mv ≠ "" ∧ normalizeVersionStr rv ≠ "" := by
  unfold detect_version_mismatch
  rcases hm : extract_version_from_metadata somef with _ | ⟨src, mv⟩
  · simp [findingGet, dictLookup]
  · rcases hr : extract_latest_release_version somef with _ | rv
    · simp [findingGet, dictLookup]
    · dsimp only
      by_cases hc : normalizeVersionStr mv ≠ normalizeVersionStr rv ∧
          normalizeVersionStr mv ≠ "" ∧ normalizeVersionStr rv ≠ ""
      · rw [if_pos hc]
        exact ⟨fun _ => ⟨src, mv, rv, rfl, rfl, hc.1, hc.2.1, hc.2.2⟩, fun _ => rfl⟩
      · rw [if_neg hc]
        constructor
        · intro h
          have hfalse : (PyVal.bool false) = (PyVal.bool true) := h
          simp at hfalse
        · rintro ⟨src', mv', rv', heq1, heq2, hne, hne1, hne2⟩
          cases heq1
          cases heq2
          exact absurd ⟨hne, hne1, hne2⟩ hc

/-- C5: the version-mismatch rule reports an issue exactly when a
structured-metadata version and a release tag both resolve and their
normalized forms (leading `v`/`V` and surrounding whitespace stripped)
are nonempty and differ; version `"1.2.3"` against tag `"v2.0.0"` yields
`has_pitfall=True` with normalized values `"1.2.3"`/`"2.0.0"`, and a
record lacking either value yields `has_pitfall=False`. -/
theorem c5_version_mismatch_rule (somef : Record) (fname : String) :
    (findingGet (detect_version_mismatch somef fname) "has_pitfall" = .bool true ↔
      ∃ src mv rv,
        extract_version_from_metadata somef = some (src, mv) ∧
        extract_latest_release_version somef = some rv ∧
        normalizeVersionStr mv ≠ normalizeVersionStr rv ∧
        normalizeVersionStr mv ≠ "" ∧ normalizeVersionStr rv ≠ "") ∧
    ((extract_version_from_metadata somef = Option.none ∨
        extract_latest_release_version somef = Option.none) →
      findingGet (detect_version_mismatch somef fname) "has_pitfall" = .bool false) ∧
    findingGet (detect_version_mismatch c5MismatchRecord "repo.json") "has_pitfall" =
      .bool true ∧
    findingGet (detect_version_mismatch c5MismatchRecord "repo.json") "metadata_version" =
      .str "1.2.3" ∧
    findingGet (detect_version_mismatch c5MismatchRecord "repo.json") "release_version" =
      .str "2.0.0" ∧
    findingGet (detect_version_mismatch c5MissingRecord "repo.json") "has_pitfall" =
      .bool false := by
  refine ⟨c5core somef fname, ?_, rfl, rfl, rfl, rfl⟩
  intro hmiss
  unfold detect_version_mismatch
  rcases hm : extract_version_from_metadata somef with _ | ⟨src, mv⟩
  · rfl
  · rcases hr : extract_latest_release_version somef with _ | rv
    · rfl
    · exfalso
      rcases hmiss with h | h
      · rw [hm] at h
        cases h
      · rw [hr] at h
        cases h

/-- C5 witness: the characterization and the fail-open implication
evaluated on the concrete mismatch and missing-value records. -/
theorem c5_version_mismatch_rule_witness :
    findingGet (detect_version_mismatch c5MismatchRecord "repo.json") "has_pitfall" =
      .bool true ∧
    findingGet (detect_version_mismatch c5MissingRecord "repo.json") "has_pitfall" =
      .bool false :=
  ⟨(c5_version_mismatch_rule c5MismatchRecord "repo.json").1.mpr
    ⟨"repo/package.json", "1.2.3", "v2.0.0", rfl, rfl,
      by decide, by decide, by decide⟩,
   (c5_version_mismatch_rule c5MissingRecord "repo.json").2.1 (Or.inl rfl)⟩

/-- C6 counterexample: the divergent-repository check does not compare the
API URL against every structured-metadata repository URL — a
`package.json`-declared URL that diverges from the API URL (and
`package.json` belongs to the recognized structured-metadata set) yields
`has_pitfall=False`, because p016 only considers `codemeta.json`
sources (fixed by `test_p016.py`, `test_non_codemeta_metadata_ignored`). -/
theorem c6_package_json_metadata_ignored :
    findingGet (detect_different_repository_pitfall c6PackageJsonRecord "t.json")
      "has_pitfall" = .bool false ∧
    isMetadataSourceStr "repository/package.json" = true ∧
    normalize_repository_url "https://github.com/user/repo2" ≠
      normalize_repository_url "https://github.com/user/repo1" :=
  ⟨rfl, by decide, by decide⟩

/-- C6 (amended): the divergent-repository check compares the API-derived
repository URL against every `codemeta.json`-declared repository URL
(other structured-metadata sources are ignored) after normalization
(strip `.git` suffix and trailing slashes, strip `git+`, rewrite SSH to
HTTPS, lowercase); `has_pitfall` is true iff at least one normalized
codemeta URL differs from the normalized API URL, `different_urls`
collects all divergent codemeta URLs rather than stopping at the first,
a record with no API-derived URL yields `has_pitfall=False`, and URLs
equal after `.git`-suffix normalization yield `has_pitfall=False`. -/
theorem c6_divergent_repository_amended (somef : Record) (fname : String) :
    (∀ entries api,
      dictLookup somef "code_repository" = some (.list entries) →
      p016ApiUrl entries = some api →
      ((findingGet (detect_different_repository_pitfall somef fname) "has_pitfall" =
          .bool true ↔
        (p016MetaUrls entries).filter
          (fun m => normalize_repository_url m ≠ normalize_repository_url api) ≠ []) ∧
       findingGet (detect_different_repository_pitfall somef fname) "different_urls" =
         .list (((p016MetaUrls entries).filter
           (fun m => normalize_repository_url m ≠ normalize_repository_url api)).map
             PyVal.str))) ∧
    (∀ entries,
      dictLookup somef "code_repository" = some (.list entries) →
      p016ApiUrl entries = Option.none →
      findingGet (detect_different_repository_pitfall somef fname) "has_pitfall" =
        .bool false) ∧
    findingGet (detect_different_repository_pitfall c6DivergentRecord "t.json")
      "has_pitfall" = .bool true ∧
    findingGet (detect_different_repository_pitfall c6DivergentRecord "t.json")
      "different_urls" = .list [.str "https://github.com/user/repo2"] ∧
    findingGet (detect_different_repository_pitfall c6GitSuffixRecord "t.json")
      "has_pitfall" = .bool false := by
  refine ⟨?_, ?_, rfl, rfl, rfl⟩
  · intro entries api hl ha
    unfold detect_different_repository_pitfall
    rw [hl]
    dsimp only
    rw [ha]
    dsimp only
    by_cases hd : ((p016MetaUrls entries).filter
        (fun m => normalize_repository_url m ≠ normalize_repository_url api)).isEmpty = true
    · rw [if_pos hd]
      have hnil : (p016MetaUrls entries).filter
          (fun m => normalize_repository_url m ≠ normalize_repository_url api) = [] := by
        simpa using hd
      constructor
      · constructor
        · intro h
          have hfalse : (PyVal.bool false) = (PyVal.bool true) := h
          simp at hfalse
        · intro h
          exact absurd hnil h
      · rw [hnil]
        rfl
    · rw [if_neg hd]
      have hne : (p016MetaUrls entries).filter
          (fun m => normalize_repository_url m ≠ normalize_repository_url api) ≠ [] := by
        simpa using hd
      exact ⟨⟨fun _ => hne, fun _ => rfl⟩, rfl⟩
  · intro entries hl ha
    unfold detect_different_repository_pitfall
    rw [hl]
    dsimp only
    rw [ha]
    rfl

/-- C6 witness: the amended characterization evaluated on the concrete
divergent record. -/
theorem c6_divergent_repository_amended_witness :
    findingGet (detect_different_repository_pitfall c6DivergentRecord "t.json")
      "has_pitfall" = .bool true :=
  ((c6_divergent_repository_amended c6DivergentRecord "t.json").1
    _ "https://github.com/user/repo1" rfl rfl).1.mpr (by decide)

/-- C1 counterexample: each rule body raises (here: Python
`AttributeError` from `entry.get` on a non-dict entry) when an
attribute's entry list contains a non-dict element, refuting "never
raises ... including records with ... a non-dict element inside an
attribute's entry list". -/
theorem c1_rules_raise_on_nondict_entry :
    detect_citation_missing_reference_publication_pitfall
      [("reference_publication", .list [.int 42])] "t.json" = .error "AttributeError" ∧
    detect_coderepository_homepage_pitfall
      [("code_repository", .list [.int 42])] "t.json" = .error "AttributeError" ∧
    detect_identifier_name_warning
      [("identifier", .list [.int 42])] "t.json" = .error "AttributeError" :=
  ⟨rfl, rfl, rfl⟩

/-- C1 (amended): on a well-typed record — every list-valued attribute's
entries are dicts whose `source`/`technique` values are strings, whose
`result` (when present) is a dict and whose `result.value` (when
present) is a string — p007, p009 and w006 never raise, and when a
rule's required attribute is missing or not a list the returned Finding
has `has_pitfall`/`has_warning` = False. -/
theorem c1_no_raise_on_welltyped_records (somef : Record) (fname : String)
    (hwt : recordWT somef = true) :
    ((detect_citation_missing_reference_publication_pitfall somef fname).isOk = true ∧
     (detect_coderepository_homepage_pitfall somef fname).isOk = true ∧
     (detect_identifier_name_warning somef fname).isOk = true) ∧
    ((attrEntries somef "reference_publication" = Option.none →
       ∃ r, detect_citation_missing_reference_publication_pitfall somef fname = .ok r ∧
         findingGet r "has_pitfall" = .bool false) ∧
     (attrEntries somef "code_repository" = Option.none →
       ∃ r, detect_coderepository_homepage_pitfall somef fname = .ok r ∧
         findingGet r "has_pitfall" = .bool false) ∧
     (attrEntries somef "identifier" = Option.none →
       ∃ r, detect_identifier_name_warning somef fname = .ok r ∧
         findingGet r "has_warning" = .bool false)) := by
  refine ⟨⟨?_, ?_, ?_⟩, ?_, ?_, ?_⟩
  · unfold detect_citation_missing_reference_publication_pitfall
    rcases ha : attrEntries somef "reference_publication" with _ | entries
    · dsimp only
      obtain ⟨res2, h2⟩ := p007CatLoop_ok somef hwt citation_cff_sources
        [("has_pitfall", .bool false), ("file_name", .str fname),
         ("codemeta_has_reference", .bool false),
         ("citation_cff_has_reference", .bool false),
         ("citation_cff_exists", .bool false)]
      rw [pureOk, okBind, h2, okBind]
      rfl
    · have hentwt := recordWT_entries somef hwt "reference_publication" entries ha
      obtain ⟨res1, h1⟩ := p007RefLoop_ok entries hentwt
        [("has_pitfall", .bool false), ("file_name", .str fname),
         ("codemeta_has_reference", .bool false),
         ("citation_cff_has_reference", .bool false),
         ("citation_cff_exists", .bool false)]
      obtain ⟨res2, h2⟩ := p007CatLoop_ok somef hwt citation_cff_sources res1
      dsimp only
      rw [h1, okBind, h2, okBind]
      rfl
  · unfold detect_coderepository_homepage_pitfall
    rcases ha : attrEntries somef "code_repository" with _ | entries
    · rfl
    · have hentwt := recordWT_entries somef hwt "code_repository" entries ha
      obtain ⟨r, hr⟩ := p009Loop_ok entries hentwt
        [("has_pitfall", .bool false), ("file_name", .str fname),
         ("repository_url", .none), ("source", .none),
         ("metadata_source_file", .none), ("is_homepage", .bool false)]
      dsimp only
      rw [hr]
      rfl
  · unfold detect_identifier_name_warning
    rcases ha : attrEntries somef "identifier" with _ | entries
    · rfl
    · have hentwt := recordWT_entries somef hwt "identifier" entries ha
      obtain ⟨cm, hcm⟩ := w006CodemetaLoop_ok entries hentwt
      obtain ⟨others, hot⟩ := w006OtherLoop_ok entries hentwt
      dsimp only
      rw [hcm, okBind, hot, okBind]
      rfl
  · intro hnone
    unfold detect_citation_missing_reference_publication_pitfall
    rw [hnone]
    dsimp only
    obtain ⟨res2, h2⟩ := p007CatLoop_ok somef hwt citation_cff_sources
      [("has_pitfall", .bool false), ("file_name", .str fname),
       ("codemeta_has_reference", .bool false),
       ("citation_cff_has_reference", .bool false),
       ("citation_cff_exists", .bool false)]
    rw [pureOk, okBind, h2, okBind]
    have hframe := (p007CatLoop_frame somef citation_cff_sources
      [("has_pitfall", .bool false), ("file_name", .str fname),
       ("codemeta_has_reference", .bool false),
       ("citation_cff_has_reference", .bool false),
       ("citation_cff_exists", .bool false)] res2 (by simp) h2).2
    have hcmr : findingGet res2 "codemeta_has_reference" = .bool false := by
      unfold findingGet
      rw [hframe "codemeta_has_reference" (by decide)]
      rfl
    have hhp : findingGet res2 "has_pitfall" = .bool false := by
      unfold findingGet
      rw [hframe "has_pitfall" (by decide)]
      rfl
    have hcond : (pyTruthy (findingGet res2 "codemeta_has_reference") &&
        pyTruthy (findingGet res2 "citation_cff_exists") &&
        !pyTruthy (findingGet res2 "citation_cff_has_reference")) = false := by
      rw [hcmr]
      rfl
    refine ⟨res2, ?_, hhp⟩
    rw [hcond]
    rfl
  · intro hnone
    unfold detect_coderepository_homepage_pitfall
    rw [hnone]
    exact ⟨_, rfl, rfl⟩
  · intro hnone
    unfold detect_identifier_name_warning
    rw [hnone]
    exact ⟨_, rfl, rfl⟩

/-- C1 witness: the amended guarantee applied to a concrete well-typed
record carrying only an `identifier` attribute. -/
theorem c1_no_raise_witness :
    recordWT [("identifier", PyVal.list
      [PyVal.dict [("source", PyVal.str "README.md"),
                   ("result", PyVal.dict [("value", PyVal.str "10.1234/x")])]])] = true ∧
    (detect_identifier_name_warning
      [("identifier", PyVal.list
        [PyVal.dict [("source", PyVal.str "README.md"),
                     ("result", PyVal.dict [("value", PyVal.str "10.1234/x")])]])]
      "t.json").isOk = true ∧
    (detect_citation_missing_reference_publication_pitfall
      [("identifier", PyVal.list
        [PyVal.dict [("source", PyVal.str "README.md"),
                     ("result", PyVal.dict [("value", PyVal.str "10.1234/x")])]])]
      "t.json").isOk = true :=
  ⟨by decide,
   (c1_no_raise_on_welltyped_records
     [("identifier", PyVal.list
       [PyVal.dict [("source", PyVal.str "README.md"),
                    ("result", PyVal.dict [("value", PyVal.str "10.1234/x")])]])]
     "t.json" (by decide)).1.2.2,
   (c1_no_raise_on_welltyped_records
     [("identifier", PyVal.list
       [PyVal.dict [("source", PyVal.str "README.md"),
                    ("result", PyVal.dict [("value", PyVal.str "10.1234/x")])]])]
     "t.json" (by decide)).1.1⟩

end RsMetaCheck
